import Mathlib

/-!
# SOL to TSLA conversion calculator and token allocation progress

A shallow embedding of the compute-bearing code of `conversion-calculator.js`,
`token-progress.js` and `wallet.js`.

Modelling conventions.

* A JavaScript number is a `JSNum`: a rational or one of the three special
  values NaN, +Infinity, -Infinity.  The operators `JSNum.mul`, `JSNum.div`,
  `JSNum.add` and `JSNum.sub` give the exact result and follow IEEE 754 on the
  special values, so a division by zero produces NaN or an infinity as the
  source does.  Zero is unsigned and divides as +0.
* The double arithmetic of the source is `Float64`: `Float64.round` sends a
  rational to its binary64 value (round to nearest, ties to even, gradual
  underflow, overflow to an infinity), and `Float64.mul`, `Float64.div`,
  `Float64.add`, `Float64.sub` are the exact operators followed by that
  rounding.
* The arithmetic methods are embedded twice.  `Doubles.calculateConversion`,
  `Doubles.calculateCurrentProgress` and `Doubles.updateProgress` compute as
  the code does, in doubles; they carry every statement whose truth depends
  on a rounded value.  `ConversionCalculator.calculateConversion`,
  `TokenAllocationProgress.calculateCurrentProgress` and
  `TokenAllocationProgress.updateProgress` are the same code in exact
  arithmetic; they carry the statements made in exact arithmetic and those
  about branches that no rounding changes.
* The DOM is reduced to what the methods read and write: the parsed value of
  the input field, whether the input element and the validation message
  element exist, and the three numbers handed to `updateOutputs`.
* A JavaScript string is a `JSString`, the list of its code units, and
  `substring` clamps and orders its two indices as the source language does.
* The interval callback of `startPriceSync` is the step function
  `checkPrices`; what it reads from the page is a `PageRead`.
* In exact arithmetic `token-progress.js` reaches its single division only
  with a positive divisor (lemma `totalDuration_pos_of_ramp`), so that
  embedding is over the rationals directly.
-/

/-- A JavaScript number in exact arithmetic: NaN, the two infinities, or a
finite rational value. -/
inductive JSNum where
  | nan : JSNum
  | posInf : JSNum
  | negInf : JSNum
  | fin (q : ℚ) : JSNum
  deriving DecidableEq

namespace JSNum

/-- The infinity that a product or quotient with an infinite operand yields,
given the sign carried by the other operand; a zero sign gives NaN. -/
def infOfSign (s : ℚ) : JSNum :=
  if 0 < s then posInf else if s < 0 then negInf else nan

/-- JavaScript `x * y` in exact arithmetic; the double product is
`Float64.mul`. -/
def mul : JSNum → JSNum → JSNum
  | nan, _ => nan
  | _, nan => nan
  | fin a, fin b => fin (a * b)
  | fin a, posInf => infOfSign a
  | fin a, negInf => infOfSign (-a)
  | posInf, fin b => infOfSign b
  | negInf, fin b => infOfSign (-b)
  | posInf, posInf => posInf
  | posInf, negInf => negInf
  | negInf, posInf => negInf
  | negInf, negInf => posInf

/-- JavaScript `x / y` in exact arithmetic; the double quotient is
`Float64.div`.  A finite value over zero is NaN when the numerator is zero and
an infinity of the sign of the numerator otherwise. -/
def div : JSNum → JSNum → JSNum
  | nan, _ => nan
  | _, nan => nan
  | fin a, fin b => if b = 0 then infOfSign a else fin (a / b)
  | fin _, posInf => fin 0
  | fin _, negInf => fin 0
  | posInf, fin b => if b < 0 then negInf else posInf
  | negInf, fin b => if b < 0 then posInf else negInf
  | posInf, posInf => nan
  | posInf, negInf => nan
  | negInf, posInf => nan
  | negInf, negInf => nan

/-- JavaScript `x < y`; every comparison with NaN is false. -/
def lt : JSNum → JSNum → Bool
  | nan, _ => false
  | _, nan => false
  | fin a, fin b => decide (a < b)
  | fin _, posInf => true
  | fin _, negInf => false
  | posInf, _ => false
  | negInf, negInf => false
  | negInf, _ => true

/-- JavaScript `x <= y`; every comparison with NaN is false. -/
def le : JSNum → JSNum → Bool
  | nan, _ => false
  | _, nan => false
  | fin a, fin b => decide (a ≤ b)
  | fin _, posInf => true
  | fin _, negInf => false
  | posInf, posInf => true
  | posInf, _ => false
  | negInf, _ => true

/-- JavaScript `x > y`. -/
def gt (x y : JSNum) : Bool := lt y x

/-- JavaScript truthiness of a number: NaN and zero are falsy. -/
def toBoolean : JSNum → Bool
  | nan => false
  | fin q => decide (q ≠ 0)
  | _ => true

/-- JavaScript `x || y` on numbers. -/
def or (x y : JSNum) : JSNum := if toBoolean x then x else y

/-- JavaScript `x == y` on numbers; NaN equals nothing, itself included. -/
def eq : JSNum → JSNum → Bool
  | nan, _ => false
  | _, nan => false
  | x, y => decide (x = y)

end JSNum

/-- The numeric state of a `ConversionCalculator` instance, with
`validationMsg` recording whether the page has the validation message
element. -/
structure ConversionCalculator where
  minTSLA : JSNum
  networkFee : JSNum
  solPrice : JSNum
  tslaPrice : JSNum
  tslaDiscountedPrice : JSNum
  validationMsg : Bool

/-- What one run of `calculateConversion` leaves on the page: the three
arguments of its `updateOutputs` call, whether the below-minimum branch was
taken, the `minSolRequired` computed there, and whether the validation message
ends up displayed. -/
structure ConversionResult where
  tslaShares : JSNum
  solUsd : JSNum
  tslaUsd : JSNum
  belowMinimum : Bool
  minSolRequired : Option JSNum
  messageShown : Bool
  deriving DecidableEq

namespace ConversionCalculator

/-- The state set up by the constructor: `minTSLA = 0.5`,
`networkFee = 0.00025` and all three prices zero. -/
def constructor (validationMsg : Bool) : ConversionCalculator :=
  ⟨JSNum.fin (1 / 2), JSNum.fin (1 / 4000), JSNum.fin 0, JSNum.fin 0, JSNum.fin 0,
    validationMsg⟩

/-- The method `calculateConversion` in exact arithmetic; `parsed` is
`parseFloat(this.solInput.value)`.  The same method in doubles is
`Doubles.calculateConversion`. -/
def calculateConversion (c : ConversionCalculator) (parsed : JSNum) : ConversionResult :=
  let solAmount := JSNum.or parsed (JSNum.fin 0)
  if JSNum.le solAmount (JSNum.fin 0) then
    ⟨JSNum.fin 0, JSNum.fin 0, JSNum.fin 0, false, none, false⟩
  else
    let solValueInUSD := JSNum.mul solAmount c.solPrice
    let tslaShares := JSNum.div solValueInUSD c.tslaDiscountedPrice
    let tslaUsdValue := JSNum.mul tslaShares c.tslaPrice
    if JSNum.gt tslaShares (JSNum.fin 0) && JSNum.lt tslaShares c.minTSLA then
      let minSolRequired := JSNum.div (JSNum.mul c.minTSLA c.tslaDiscountedPrice) c.solPrice
      ⟨tslaShares, solValueInUSD, tslaUsdValue, true, some minSolRequired, c.validationMsg⟩
    else
      ⟨tslaShares, solValueInUSD, tslaUsdValue, false, none, false⟩

/-- The guard of `updateRateDisplay`: the rate is computed only when the rate
element exists and neither price is zero. -/
def updateRateDisplay (c : ConversionCalculator) (rateDisplay : Bool) : Option JSNum :=
  if !rateDisplay || c.solPrice = JSNum.fin 0 || c.tslaDiscountedPrice = JSNum.fin 0 then none
  else some (JSNum.div c.solPrice c.tslaDiscountedPrice)

end ConversionCalculator

/-- The configuration of a `TokenAllocationProgress` instance; `startDate` is
`this.startDate.getTime()` in milliseconds. -/
structure TokenAllocationProgress where
  startDate : ℚ
  durationDays : ℚ
  maxProgress : ℚ
  totalTokens : ℚ
  startProgress : ℚ

/-- The numbers computed by one run of `updateProgress`. -/
structure AllocationSnapshot where
  currentProgress : ℚ
  sold : ℤ
  left : ℚ

namespace TokenAllocationProgress

/-- The configuration written in the constructor, for a start date whose
timestamp is `startDate` milliseconds. -/
def constructor (startDate : ℚ) : TokenAllocationProgress :=
  ⟨startDate, 45, 95, 100000, 45⟩

/-- The timestamp `endTime` of `calculateCurrentProgress`. -/
def endTime (m : TokenAllocationProgress) : ℚ :=
  m.startDate + (m.durationDays * 24 * 60 * 60 * 1000)

/-- The method `calculateCurrentProgress` in exact arithmetic; `now` is
`new Date().getTime()`. -/
def calculateCurrentProgress (m : TokenAllocationProgress) (now : ℚ) : ℚ :=
  let startTime := m.startDate
  let endTime := startTime + (m.durationDays * 24 * 60 * 60 * 1000)
  let currentTime := now
  if currentTime < startTime then
    m.startProgress
  else if currentTime ≥ endTime then
    m.maxProgress
  else
    let elapsed := currentTime - startTime
    let totalDuration := endTime - startTime
    let progressRange := m.maxProgress - m.startProgress
    let calculatedProgress := m.startProgress + (elapsed / totalDuration) * progressRange
    min calculatedProgress m.maxProgress

/-- The method `updateProgress` in exact arithmetic, reduced to the numbers it
computes.  The same method in doubles is `Doubles.updateProgress`. -/
def updateProgress (m : TokenAllocationProgress) (now : ℚ) : AllocationSnapshot :=
  let currentProgress := calculateCurrentProgress m now
  let sold := Int.floor ((currentProgress / 100) * m.totalTokens)
  let left := m.totalTokens - sold
  ⟨currentProgress, sold, left⟩

end TokenAllocationProgress

/-- A JavaScript string as the list of its code units. -/
abbrev JSString := List Char

namespace JSString

/-- JavaScript `s.substring(start, stop)`: both indices are clamped to
`[0, s.length]` and swapped when out of order. -/
def substring (s : JSString) (start stop : Int) : JSString :=
  let len : Int := s.length
  let a := min (max start 0) len
  let b := min (max stop 0) len
  let lo := min a b
  let hi := max a b
  (s.drop lo.toNat).take (hi.toNat - lo.toNat)

/-- JavaScript `s.substring(start)`, which runs to the end of the string. -/
def substringFrom (s : JSString) (start : Int) : JSString :=
  substring s start s.length

/-- The literal text between the two parts of a formatted address. -/
def dots : JSString := ['.', '.', '.']

end JSString

namespace ConversionCalculator

/-- The method `formatAddress` of the calculator: an empty or short address is
returned as it is. -/
def formatAddress (addr : JSString) : JSString :=
  if addr = [] ∨ addr.length < 8 then addr
  else JSString.substring addr 0 5 ++ JSString.dots
    ++ JSString.substringFrom addr ((addr.length : Int) - 3)

end ConversionCalculator

namespace Wallet

/-- The helper `formatAddress` of `wallet.js`, which has no length test. -/
def formatAddress (addr : JSString) : JSString :=
  JSString.substring addr 0 5 ++ JSString.dots
    ++ JSString.substringFrom addr ((addr.length : Int) - 3)

end Wallet

namespace JSNum

/-- JavaScript `x + y` in exact arithmetic. -/
def add : JSNum → JSNum → JSNum
  | nan, _ => nan
  | _, nan => nan
  | fin a, fin b => fin (a + b)
  | fin _, posInf => posInf
  | fin _, negInf => negInf
  | posInf, fin _ => posInf
  | negInf, fin _ => negInf
  | posInf, posInf => posInf
  | posInf, negInf => nan
  | negInf, posInf => nan
  | negInf, negInf => negInf

/-- JavaScript `x - y` in exact arithmetic. -/
def sub : JSNum → JSNum → JSNum
  | nan, _ => nan
  | _, nan => nan
  | fin a, fin b => fin (a - b)
  | fin _, posInf => negInf
  | fin _, negInf => posInf
  | posInf, fin _ => posInf
  | negInf, fin _ => negInf
  | posInf, posInf => nan
  | posInf, negInf => posInf
  | negInf, posInf => negInf
  | negInf, negInf => nan

/-- JavaScript `x >= y`. -/
def ge (x y : JSNum) : Bool := le y x

/-- JavaScript `Math.min(x, y)`; NaN when either argument is NaN. -/
def min : JSNum → JSNum → JSNum
  | nan, _ => nan
  | _, nan => nan
  | x, y => if le x y then x else y

/-- JavaScript `Math.floor(x)`. -/
def floor : JSNum → JSNum
  | fin q => fin (Int.floor q)
  | x => x

end JSNum

namespace Float64

/-- The integer nearest to `x`, a tie going to the even one. -/
def roundHalfEven (x : ℚ) : ℤ :=
  if x - Int.floor x < 1 / 2 then Int.floor x
  else if 1 / 2 < x - Int.floor x then Int.floor x + 1
  else if Int.floor x % 2 = 0 then Int.floor x
  else Int.floor x + 1

/-- The floor of the binary logarithm of `n`, by halving at most `fuel`
times; zero for `n < 2`. -/
def log2Fuel : ℕ → ℕ → ℕ
  | 0, _ => 0
  | fuel + 1, n => if 2 ≤ n then log2Fuel fuel (n / 2) + 1 else 0

/-- The floor of the binary logarithm of a natural number. -/
def log2 (n : ℕ) : ℕ := log2Fuel n n

/-- The binary exponent of a rational that is not zero: the integer `e` with
`2 ^ e ≤ |q| < 2 ^ (e + 1)`, found from the bit lengths of numerator and
denominator. -/
def binExp (q : ℚ) : ℤ :=
  if (2 : ℚ) ^ ((log2 q.num.natAbs : ℤ) - (log2 q.den : ℤ)) ≤ |q| then
    (log2 q.num.natAbs : ℤ) - (log2 q.den : ℤ)
  else (log2 q.num.natAbs : ℤ) - (log2 q.den : ℤ) - 1

/-- The exponent of the unit in the last place of the binary64 format at `q`:
52 below the binary exponent of `q`, and -1074 throughout the subnormal
range. -/
def ulpExp (q : ℚ) : ℤ := max (binExp q) (-1022) - 52

/-- The binary64 value of a real number: round to nearest, ties to even, with
gradual underflow, and overflow to an infinity from `2 ^ 1024` on. -/
def round (q : ℚ) : JSNum :=
  if q = 0 then JSNum.fin 0
  else if (2 : ℚ) ^ (1024 : ℕ) ≤ (roundHalfEven (q / 2 ^ ulpExp q) : ℚ) * 2 ^ ulpExp q then
    JSNum.posInf
  else if (roundHalfEven (q / 2 ^ ulpExp q) : ℚ) * 2 ^ ulpExp q ≤ -(2 : ℚ) ^ (1024 : ℕ) then
    JSNum.negInf
  else JSNum.fin ((roundHalfEven (q / 2 ^ ulpExp q) : ℚ) * 2 ^ ulpExp q)

/-- The binary64 value of an exact result; NaN and the infinities stay. -/
def ofExact : JSNum → JSNum
  | JSNum.fin q => round q
  | x => x

/-- JavaScript `x * y` on doubles: the exact product, rounded. -/
def mul (x y : JSNum) : JSNum := ofExact (JSNum.mul x y)

/-- JavaScript `x / y` on doubles: the exact quotient, rounded. -/
def div (x y : JSNum) : JSNum := ofExact (JSNum.div x y)

/-- JavaScript `x + y` on doubles: the exact sum, rounded. -/
def add (x y : JSNum) : JSNum := ofExact (JSNum.add x y)

/-- JavaScript `x - y` on doubles: the exact difference, rounded. -/
def sub (x y : JSNum) : JSNum := ofExact (JSNum.sub x y)

end Float64

/-- What a tick of the price sync finds on the page: `prices` is `none` when
one of the two price elements is missing and otherwise holds `parseFloat` of
the TSLA text and of the SOL text; `inputValue` is
`parseFloat(this.solInput.value)`, read only when the input element exists. -/
structure PageRead where
  prices : Option (JSNum × JSNum)
  inputValue : JSNum

/-- The numbers computed by one run of `updateProgress` in double
arithmetic. -/
structure Doubles.AllocationSnapshot where
  currentProgress : JSNum
  sold : JSNum
  left : JSNum
  deriving DecidableEq

namespace Doubles

/-- The method `calculateConversion` in double arithmetic: every product and
quotient is rounded to binary64 as the source does. -/
def calculateConversion (c : ConversionCalculator) (parsed : JSNum) : ConversionResult :=
  let solAmount := JSNum.or parsed (JSNum.fin 0)
  if JSNum.le solAmount (JSNum.fin 0) then
    ⟨JSNum.fin 0, JSNum.fin 0, JSNum.fin 0, false, none, false⟩
  else
    let solValueInUSD := Float64.mul solAmount c.solPrice
    let tslaShares := Float64.div solValueInUSD c.tslaDiscountedPrice
    let tslaUsdValue := Float64.mul tslaShares c.tslaPrice
    if JSNum.gt tslaShares (JSNum.fin 0) && JSNum.lt tslaShares c.minTSLA then
      let minSolRequired :=
        Float64.div (Float64.mul c.minTSLA c.tslaDiscountedPrice) c.solPrice
      ⟨tslaShares, solValueInUSD, tslaUsdValue, true, some minSolRequired, c.validationMsg⟩
    else
      ⟨tslaShares, solValueInUSD, tslaUsdValue, false, none, false⟩

/-- The method `calculateCurrentProgress` in double arithmetic. -/
def calculateCurrentProgress (m : TokenAllocationProgress) (now : ℚ) : JSNum :=
  let startTime := JSNum.fin m.startDate
  let endTime := Float64.add startTime
    (Float64.mul (Float64.mul (Float64.mul (Float64.mul (JSNum.fin m.durationDays)
      (JSNum.fin 24)) (JSNum.fin 60)) (JSNum.fin 60)) (JSNum.fin 1000))
  let currentTime := JSNum.fin now
  if JSNum.lt currentTime startTime then
    JSNum.fin m.startProgress
  else if JSNum.ge currentTime endTime then
    JSNum.fin m.maxProgress
  else
    let elapsed := Float64.sub currentTime startTime
    let totalDuration := Float64.sub endTime startTime
    let progressRange := Float64.sub (JSNum.fin m.maxProgress) (JSNum.fin m.startProgress)
    let calculatedProgress := Float64.add (JSNum.fin m.startProgress)
      (Float64.mul (Float64.div elapsed totalDuration) progressRange)
    JSNum.min calculatedProgress (JSNum.fin m.maxProgress)

/-- The method `updateProgress` in double arithmetic, reduced to the numbers
it computes. -/
def updateProgress (m : TokenAllocationProgress) (now : ℚ) : AllocationSnapshot :=
  let currentProgress := calculateCurrentProgress m now
  let sold := JSNum.floor
    (Float64.mul (Float64.div currentProgress (JSNum.fin 100)) (JSNum.fin m.totalTokens))
  let left := Float64.sub (JSNum.fin m.totalTokens) sold
  ⟨currentProgress, sold, left⟩

end Doubles

namespace ConversionCalculator

/-- The call `this.calculateConversion()`.  The method reads
`this.solInput.value` without a null test, so on a page without the input
element (`solInput = false`) it throws, rendered as `none`. -/
def calculateConversionCall (c : ConversionCalculator) (solInput : Bool) (inputValue : JSNum) :
    Option ConversionResult :=
  if solInput then some (Doubles.calculateConversion c inputValue) else none

/-- The callback that `startPriceSync` runs every 500 ms.  `solInput` tells
whether the page has the input element cached by `initializeElements`.  The
result is the new state and whether the callback cleared its own interval:
`clearInterval` comes after the call of `calculateConversion` and is not
reached when that call throws. -/
def checkPrices (c : ConversionCalculator) (solInput : Bool) (page : PageRead) :
    ConversionCalculator × Bool :=
  match page.prices with
  | none => (c, false)
  | some (tslaParsed, solParsed) =>
    let tslaPrice := tslaParsed
    let solPrice := solParsed
    if JSNum.gt tslaPrice (JSNum.fin 0) && JSNum.gt solPrice (JSNum.fin 0) then
      match calculateConversionCall
          ⟨c.minTSLA, c.networkFee, solPrice, tslaPrice,
            Float64.mul tslaPrice (JSNum.fin (1 / 2)), c.validationMsg⟩
          solInput page.inputValue with
      | some _ =>
        (⟨c.minTSLA, c.networkFee, solPrice, tslaPrice,
            Float64.mul tslaPrice (JSNum.fin (1 / 2)), c.validationMsg⟩, true)
      | none =>
        (⟨c.minTSLA, c.networkFee, solPrice, tslaPrice,
            Float64.mul tslaPrice (JSNum.fin (1 / 2)), c.validationMsg⟩, false)
    else
      (⟨c.minTSLA, c.networkFee, solPrice, tslaPrice, c.tslaDiscountedPrice,
          c.validationMsg⟩, false)

/-- The method `startPriceSync` over the successive page reads of its ticks:
the ticks run until the callback clears the interval or the reads end (the
30 s timeout). -/
def startPriceSync (c : ConversionCalculator) (solInput : Bool) :
    List PageRead → ConversionCalculator
  | [] => c
  | page :: rest =>
    if (checkPrices c solInput page).2 then (checkPrices c solInput page).1
    else startPriceSync (checkPrices c solInput page).1 solInput rest

end ConversionCalculator

/-! ## Helper lemmas on JavaScript numbers -/

namespace JSNum

/-- The value of `infOfSign` is never finite. -/
theorem infOfSign_ne_fin (s q : ℚ) : infOfSign s ≠ fin q := by
  unfold infOfSign
  split_ifs <;> simp

/-- A positive number is truthy, so `x || 0` is `x`, and it fails the test
`x <= 0`. -/
theorem or_zero_of_pos (x : JSNum) (h : gt x (fin 0) = true) :
    JSNum.or x (fin 0) = x ∧ le x (fin 0) = false := by
  rcases x with _ | _ | _ | a
  · simp [gt, lt] at h
  · simp [JSNum.or, toBoolean, le]
  · simp [gt, lt] at h
  · have ha : 0 < a := by simpa [gt, lt] using h
    simp [JSNum.or, toBoolean, le, ne_of_gt ha, ha]

/-- A number strictly above zero and strictly below some other number is a
positive finite value. -/
theorem fin_of_between (x m : JSNum) (h0 : gt x (fin 0) = true) (hm : lt x m = true) :
    ∃ s : ℚ, x = fin s ∧ 0 < s := by
  rcases x with _ | _ | _ | s
  · simp [gt, lt] at h0
  · rcases m with _ | _ | _ | m <;> simp [lt] at hm
  · simp [gt, lt] at h0
  · exact ⟨s, rfl, by simpa [gt, lt] using h0⟩

/-- A quotient that is finite and not zero comes from finite operands and a
divisor that is not zero. -/
theorem div_eq_fin (x y : JSNum) (s : ℚ) (h : div x y = fin s) (hs : s ≠ 0) :
    ∃ u d : ℚ, x = fin u ∧ y = fin d ∧ d ≠ 0 ∧ s = u / d := by
  rcases x with _ | _ | _ | u <;> rcases y with _ | _ | _ | d
  case fin.fin =>
    simp only [div] at h
    split_ifs at h with hd
    · exact absurd h (infOfSign_ne_fin u s)
    · exact ⟨u, d, rfl, rfl, hd, (JSNum.fin.inj h).symm⟩
  case fin.posInf => exact absurd (JSNum.fin.inj h).symm hs
  case fin.negInf => exact absurd (JSNum.fin.inj h).symm hs
  case posInf.fin =>
    simp only [div] at h
    split_ifs at h
  case negInf.fin =>
    simp only [div] at h
    split_ifs at h
  all_goals simp [div] at h

/-- A product that is finite comes from finite operands. -/
theorem mul_eq_fin (x y : JSNum) (u : ℚ) (h : mul x y = fin u) :
    ∃ a p : ℚ, x = fin a ∧ y = fin p ∧ u = a * p := by
  rcases x with _ | _ | _ | a <;> rcases y with _ | _ | _ | p
  case fin.fin => exact ⟨a, p, rfl, rfl, (JSNum.fin.inj h).symm⟩
  case fin.posInf => exact absurd h (infOfSign_ne_fin _ _)
  case fin.negInf => exact absurd h (infOfSign_ne_fin _ _)
  case posInf.fin => exact absurd h (infOfSign_ne_fin _ _)
  case negInf.fin => exact absurd h (infOfSign_ne_fin _ _)
  all_goals simp [mul] at h

end JSNum

/-! ## Helper lemmas on the calculator -/

namespace ConversionCalculator

/-- With a positive finite amount and finite prices the method takes the main
path, and its three outputs are the exact products and quotients. -/
theorem calculateConversion_fin (m fee t : JSNum) (v : Bool) (a p d : ℚ)
    (ha : 0 < a) (hd : d ≠ 0) :
    (calculateConversion ⟨m, fee, JSNum.fin p, t, JSNum.fin d, v⟩ (JSNum.fin a)).tslaShares
        = JSNum.fin (a * p / d) ∧
    (calculateConversion ⟨m, fee, JSNum.fin p, t, JSNum.fin d, v⟩ (JSNum.fin a)).solUsd
        = JSNum.fin (a * p) ∧
    (calculateConversion ⟨m, fee, JSNum.fin p, t, JSNum.fin d, v⟩ (JSNum.fin a)).tslaUsd
        = JSNum.mul (JSNum.fin (a * p / d)) t := by
  have ha0 : a ≠ 0 := ne_of_gt ha
  have hna : ¬ a ≤ 0 := not_le.mpr ha
  simp only [calculateConversion, JSNum.or, JSNum.toBoolean, JSNum.le, JSNum.mul, JSNum.div]
  simp only [ha0, hna, hd, ne_eq, not_false_eq_true, decide_True, decide_False, if_true,
    if_false, Bool.false_eq_true]
  split <;> simp

/-- On a positive amount the method takes the main path: its outputs are the
product, the quotient and the product with the undiscounted price, and the
below-minimum branch is decided by the two strict comparisons. -/
theorem calculateConversion_pos (c : ConversionCalculator) (parsed : JSNum)
    (h : JSNum.gt parsed (JSNum.fin 0) = true) :
    (calculateConversion c parsed).tslaShares
      = JSNum.div (JSNum.mul parsed c.solPrice) c.tslaDiscountedPrice ∧
    (calculateConversion c parsed).solUsd = JSNum.mul parsed c.solPrice ∧
    (calculateConversion c parsed).tslaUsd
      = JSNum.mul (JSNum.div (JSNum.mul parsed c.solPrice) c.tslaDiscountedPrice) c.tslaPrice ∧
    (calculateConversion c parsed).belowMinimum
      = (JSNum.gt (JSNum.div (JSNum.mul parsed c.solPrice) c.tslaDiscountedPrice) (JSNum.fin 0)
          && JSNum.lt (JSNum.div (JSNum.mul parsed c.solPrice) c.tslaDiscountedPrice)
              c.minTSLA) ∧
    (calculateConversion c parsed).messageShown
      = ((JSNum.gt (JSNum.div (JSNum.mul parsed c.solPrice) c.tslaDiscountedPrice) (JSNum.fin 0)
          && JSNum.lt (JSNum.div (JSNum.mul parsed c.solPrice) c.tslaDiscountedPrice)
              c.minTSLA) && c.validationMsg) := by
  obtain ⟨hor, hle⟩ := JSNum.or_zero_of_pos parsed h
  unfold calculateConversion
  simp only [hor, hle, Bool.false_eq_true, if_false]
  split_ifs with hb
  · simp [hb]
  · simp [hb]

/-- With a positive finite amount, finite prices and a finite threshold, the
below-minimum branch is taken exactly when the exact quotient lies strictly
between zero and the threshold, and the message is displayed exactly when in
addition the element exists. -/
theorem belowMinimum_fin (fee t : JSNum) (v : Bool) (m a p d : ℚ)
    (ha : 0 < a) (hd : d ≠ 0) :
    ((calculateConversion ⟨JSNum.fin m, fee, JSNum.fin p, t, JSNum.fin d, v⟩
        (JSNum.fin a)).belowMinimum = true ↔ (0 < a * p / d ∧ a * p / d < m)) ∧
    ((calculateConversion ⟨JSNum.fin m, fee, JSNum.fin p, t, JSNum.fin d, v⟩
        (JSNum.fin a)).messageShown = true ↔ (v = true ∧ 0 < a * p / d ∧ a * p / d < m)) := by
  have ha0 : a ≠ 0 := ne_of_gt ha
  have hna : ¬ a ≤ 0 := not_le.mpr ha
  simp only [calculateConversion, JSNum.or, JSNum.toBoolean, JSNum.le, JSNum.mul, JSNum.div,
    JSNum.gt, JSNum.lt]
  simp only [ha0, hna, hd, ne_eq, not_false_eq_true, decide_True, decide_False, if_true,
    if_false, Bool.false_eq_true, Bool.and_eq_true, decide_eq_true_eq]
  by_cases h : 0 < a * p / d ∧ a * p / d < m
  · simp [h]
  · simp [h]

/-- Whenever the below-minimum branch is taken, the amount and both prices the
quotient is formed from are finite, the amount is positive and neither price
is zero. -/
theorem belowMinimum_finite (c : ConversionCalculator) (parsed : JSNum)
    (hb : (calculateConversion c parsed).belowMinimum = true) :
    ∃ a p d : ℚ, parsed = JSNum.fin a ∧ c.solPrice = JSNum.fin p ∧
      c.tslaDiscountedPrice = JSNum.fin d ∧ 0 < a ∧ p ≠ 0 ∧ d ≠ 0 ∧ 0 < a * p / d := by
  unfold calculateConversion at hb
  simp only at hb
  by_cases h1 : JSNum.le (JSNum.or parsed (JSNum.fin 0)) (JSNum.fin 0) = true
  · simp [h1] at hb
  · simp only [h1, Bool.false_eq_true, if_false] at hb
    split_ifs at hb with h2
    simp only [Bool.and_eq_true] at h2
    obtain ⟨s, hs, hs0⟩ := JSNum.fin_of_between _ _ h2.1 h2.2
    obtain ⟨u, d, hu, hd, hd0, hsu⟩ := JSNum.div_eq_fin _ _ s hs (ne_of_gt hs0)
    have hu0 : u ≠ 0 := by
      rintro rfl
      rw [hsu] at hs0
      simp at hs0
    obtain ⟨a', p, ha', hp, hap⟩ := JSNum.mul_eq_fin _ _ u hu
    have hpa : parsed = JSNum.fin a' ∧ 0 < a' := by
      rcases parsed with _ | _ | _ | a
      · simp [JSNum.or, JSNum.toBoolean, JSNum.le] at h1
      · simp [JSNum.or, JSNum.toBoolean] at ha'
      · simp [JSNum.or, JSNum.toBoolean, JSNum.le] at h1
      · by_cases ha0 : a = 0
        · simp [JSNum.or, JSNum.toBoolean, JSNum.le, ha0] at h1
        · simp only [JSNum.or, JSNum.toBoolean, ne_eq, ha0, not_false_eq_true, decide_True,
            if_true, JSNum.le, decide_eq_true_eq, not_le, JSNum.fin.injEq] at h1 ha'
          subst ha'
          exact ⟨rfl, h1⟩
    refine ⟨a', p, d, hpa.1, hp, hd, hpa.2, ?_, hd0, ?_⟩
    · rintro rfl
      apply hu0
      rw [hap, mul_zero]
    · rw [← hap, ← hsu]
      exact hs0

end ConversionCalculator

/-! ## The conversion calculator -/

namespace ConversionCalculator

/-- Claim C1.  For every calculator state and every input whose parsed amount
is NaN (unparsable or empty, so it counts as 0) or is at most 0,
`calculateConversion` hands the three zeros to `updateOutputs`, does not take
the below-minimum branch and leaves the validation message hidden. -/
theorem calculateConversion_nonpositive (c : ConversionCalculator) (parsed : JSNum)
    (h : parsed = JSNum.nan ∨ JSNum.le parsed (JSNum.fin 0) = true) :
    (calculateConversion c parsed).tslaShares = JSNum.fin 0 ∧
    (calculateConversion c parsed).solUsd = JSNum.fin 0 ∧
    (calculateConversion c parsed).tslaUsd = JSNum.fin 0 ∧
    (calculateConversion c parsed).belowMinimum = false ∧
    (calculateConversion c parsed).minSolRequired = none ∧
    (calculateConversion c parsed).messageShown = false := by
  have hle : JSNum.le (JSNum.or parsed (JSNum.fin 0)) (JSNum.fin 0) = true := by
    rcases h with rfl | h
    · simp [JSNum.or, JSNum.toBoolean, JSNum.le]
    · rcases parsed with _ | _ | _ | a
      · simp [JSNum.le] at h
      · simp [JSNum.le] at h
      · simp [JSNum.or, JSNum.toBoolean, JSNum.le]
      · by_cases ha : a = 0
        · simp [JSNum.or, JSNum.toBoolean, JSNum.le, ha]
        · simpa [JSNum.or, JSNum.toBoolean, JSNum.le, ha] using h
  simp [calculateConversion, hle]

/-- Witness for C1: the amount -3 with live prices 150 and 300. -/
theorem calculateConversion_nonpositive_witness :
    JSNum.le (JSNum.fin (-3)) (JSNum.fin 0) = true ∧
    (calculateConversion ⟨JSNum.fin (1 / 2), JSNum.fin (1 / 4000), JSNum.fin 150,
        JSNum.fin 300, JSNum.fin 150, true⟩ (JSNum.fin (-3))).tslaShares = JSNum.fin 0 :=
  ⟨by simp [JSNum.le],
   (calculateConversion_nonpositive _ (JSNum.fin (-3)) (Or.inr (by simp [JSNum.le]))).1⟩

/-- Claim C2, evaluated on the code.  With a discounted price of zero the method
still divides: in the state left by the constructor an amount of 1 yields NaN
shares and a NaN TSLA value, and with a SOL price of 150 it yields infinite
shares; the sibling `updateRateDisplay` returns before dividing in both
states. -/
theorem calculateConversion_zero_discounted_price :
    calculateConversion (constructor true) (JSNum.fin 1)
      = ⟨JSNum.nan, JSNum.fin 0, JSNum.nan, false, none, false⟩ ∧
    calculateConversion ⟨JSNum.fin (1 / 2), JSNum.fin (1 / 4000), JSNum.fin 150,
        JSNum.fin 0, JSNum.fin 0, true⟩ (JSNum.fin 1)
      = ⟨JSNum.posInf, JSNum.fin 150, JSNum.nan, false, none, false⟩ ∧
    updateRateDisplay (constructor true) true = none ∧
    updateRateDisplay ⟨JSNum.fin (1 / 2), JSNum.fin (1 / 4000), JSNum.fin 150,
        JSNum.fin 0, JSNum.fin 0, true⟩ true = none := by
  refine ⟨?_, ?_, ?_, ?_⟩
  · simp [calculateConversion, constructor, JSNum.or, JSNum.toBoolean, JSNum.le, JSNum.mul,
      JSNum.div, JSNum.gt, JSNum.lt, JSNum.infOfSign]
  · simp [calculateConversion, JSNum.or, JSNum.toBoolean, JSNum.le, JSNum.mul,
      JSNum.div, JSNum.gt, JSNum.lt, JSNum.infOfSign]
  · simp [updateRateDisplay, constructor]
  · simp [updateRateDisplay]

end ConversionCalculator

namespace ConversionCalculator

/-- Claim C4.  Value conservation: for every positive amount and positive SOL
and discounted prices the shares computed by `calculateConversion` are a
finite value `s` with `s * tslaDiscountedPrice = solAmount * solPrice`, the
product also being the reported SOL value; at prices 150, 300 and 150 the
amount 1 gives a SOL value of 150 and 1 share. -/
theorem value_conservation (m fee t : JSNum) (v : Bool) (a p d : ℚ)
    (ha : 0 < a) (_hp : 0 < p) (hd : 0 < d) :
    (∃ s : ℚ,
      (calculateConversion ⟨m, fee, JSNum.fin p, t, JSNum.fin d, v⟩ (JSNum.fin a)).tslaShares
        = JSNum.fin s ∧ s * d = a * p) ∧
    JSNum.mul
      (calculateConversion ⟨m, fee, JSNum.fin p, t, JSNum.fin d, v⟩ (JSNum.fin a)).tslaShares
      (JSNum.fin d) = JSNum.mul (JSNum.fin a) (JSNum.fin p) ∧
    (calculateConversion ⟨m, fee, JSNum.fin p, t, JSNum.fin d, v⟩ (JSNum.fin a)).solUsd
      = JSNum.mul (JSNum.fin a) (JSNum.fin p) ∧
    (calculateConversion ⟨JSNum.fin (1 / 2), JSNum.fin (1 / 4000), JSNum.fin 150,
        JSNum.fin 300, JSNum.fin 150, v⟩ (JSNum.fin 1)).solUsd = JSNum.fin 150 ∧
    (calculateConversion ⟨JSNum.fin (1 / 2), JSNum.fin (1 / 4000), JSNum.fin 150,
        JSNum.fin 300, JSNum.fin 150, v⟩ (JSNum.fin 1)).tslaShares = JSNum.fin 1 := by
  have hd0 : d ≠ 0 := ne_of_gt hd
  have h := calculateConversion_fin m fee t v a p d ha hd0
  have hx := calculateConversion_fin (JSNum.fin (1 / 2)) (JSNum.fin (1 / 4000))
    (JSNum.fin 300) v 1 150 150 (by norm_num) (by norm_num)
  refine ⟨⟨a * p / d, h.1, div_mul_cancel₀ _ hd0⟩, ?_, ?_, ?_, ?_⟩
  · rw [h.1]
    simp [JSNum.mul, div_mul_cancel₀ _ hd0]
  · rw [h.2.1]
    simp [JSNum.mul]
  · rw [hx.2.1]
    norm_num
  · rw [hx.1]
    norm_num

/-- Witness for C4: the amount 3 at a SOL price of 100 and a discounted price
of 120. -/
theorem value_conservation_witness :
    (0 : ℚ) < 3 ∧ (0 : ℚ) < 100 ∧ (0 : ℚ) < 120 ∧
    JSNum.mul
      (calculateConversion ⟨JSNum.fin (1 / 2), JSNum.fin (1 / 4000), JSNum.fin 100,
        JSNum.fin 240, JSNum.fin 120, true⟩ (JSNum.fin 3)).tslaShares
      (JSNum.fin 120) = JSNum.mul (JSNum.fin 3) (JSNum.fin 100) :=
  ⟨by norm_num, by norm_num, by norm_num,
   (value_conservation (JSNum.fin (1 / 2)) (JSNum.fin (1 / 4000)) (JSNum.fin 240) true
      3 100 120 (by norm_num) (by norm_num) (by norm_num)).2.1⟩

end ConversionCalculator

namespace ConversionCalculator

/-- Claim C5.  In every state and for every input on which
`calculateConversion` takes the below-minimum branch, the minimum SOL amount
it computes is `(minTSLA * tslaDiscountedPrice) / solPrice`, a true division:
both prices are finite and not zero, so for a finite `minTSLA = m` the value
is the exact quotient `m * d / p`.  At prices 150, 300 and 150 with
`minTSLA = 0.5` the amount 0.4 gives a SOL value of 60, 0.4 shares, the
below-minimum branch and a minimum of 0.5 SOL. -/
theorem minSolRequired_eq (c : ConversionCalculator) (parsed : JSNum)
    (hb : (calculateConversion c parsed).belowMinimum = true) :
    (calculateConversion c parsed).minSolRequired
      = some (JSNum.div (JSNum.mul c.minTSLA c.tslaDiscountedPrice) c.solPrice) ∧
    (∃ p d : ℚ, c.solPrice = JSNum.fin p ∧ c.tslaDiscountedPrice = JSNum.fin d ∧
      p ≠ 0 ∧ d ≠ 0 ∧
      ∀ m : ℚ, c.minTSLA = JSNum.fin m →
        (calculateConversion c parsed).minSolRequired = some (JSNum.fin (m * d / p))) ∧
    calculateConversion ⟨JSNum.fin (1 / 2), JSNum.fin (1 / 4000), JSNum.fin 150,
        JSNum.fin 300, JSNum.fin 150, true⟩ (JSNum.fin (2 / 5))
      = ⟨JSNum.fin (2 / 5), JSNum.fin 60, JSNum.fin 120, true, some (JSNum.fin (1 / 2)),
          true⟩ := by
  have hmin : (calculateConversion c parsed).minSolRequired
      = some (JSNum.div (JSNum.mul c.minTSLA c.tslaDiscountedPrice) c.solPrice) := by
    unfold calculateConversion at hb ⊢
    simp only at hb ⊢
    split_ifs at hb ⊢
    rfl
  obtain ⟨a, p, d, _, hp, hd, _, hp0, hd0, _⟩ := belowMinimum_finite c parsed hb
  refine ⟨hmin, ⟨p, d, hp, hd, hp0, hd0, ?_⟩, ?_⟩
  · intro m hm
    rw [hmin, hm, hd, hp]
    simp [JSNum.mul, JSNum.div, hp0]
  · simp only [calculateConversion, JSNum.or, JSNum.toBoolean, JSNum.le, JSNum.mul, JSNum.div,
      JSNum.gt, JSNum.lt]
    norm_num

/-- Witness for C5: the amount 0.4 at prices 150, 300 and 150. -/
theorem minSolRequired_eq_witness :
    (calculateConversion ⟨JSNum.fin (1 / 2), JSNum.fin (1 / 4000), JSNum.fin 150,
        JSNum.fin 300, JSNum.fin 150, true⟩ (JSNum.fin (2 / 5))).belowMinimum = true ∧
    (calculateConversion ⟨JSNum.fin (1 / 2), JSNum.fin (1 / 4000), JSNum.fin 150,
        JSNum.fin 300, JSNum.fin 150, true⟩ (JSNum.fin (2 / 5))).minSolRequired
      = some (JSNum.div (JSNum.mul (JSNum.fin (1 / 2)) (JSNum.fin 150)) (JSNum.fin 150)) :=
  have hb : (calculateConversion ⟨JSNum.fin (1 / 2), JSNum.fin (1 / 4000), JSNum.fin 150,
      JSNum.fin 300, JSNum.fin 150, true⟩ (JSNum.fin (2 / 5))).belowMinimum = true :=
    (belowMinimum_fin (JSNum.fin (1 / 4000)) (JSNum.fin 300) true (1 / 2) (2 / 5) 150 150
      (by norm_num) (by norm_num)).1.mpr (by norm_num)
  ⟨hb, (minSolRequired_eq _ _ hb).1⟩

end ConversionCalculator

/-! ## The token allocation progress -/

namespace TokenAllocationProgress

/-- The division of `calculateCurrentProgress` is reached only with a positive
divisor: on the ramp, `totalDuration = endTime - startTime` is positive. -/
theorem totalDuration_pos_of_ramp (m : TokenAllocationProgress) (now : ℚ)
    (h1 : ¬ now < m.startDate)
    (h2 : ¬ now ≥ m.startDate + (m.durationDays * 24 * 60 * 60 * 1000)) :
    0 < m.startDate + (m.durationDays * 24 * 60 * 60 * 1000) - m.startDate := by
  push_neg at h1 h2
  linarith

/-- On the ramp, with `startProgress ≤ maxProgress`, the interpolated value
does not exceed `maxProgress`, so the final `Math.min` returns it. -/
theorem calculateCurrentProgress_ramp (m : TokenAllocationProgress) (now : ℚ)
    (hr : m.startProgress ≤ m.maxProgress)
    (h1 : m.startDate ≤ now) (h2 : now < endTime m) :
    calculateCurrentProgress m now
      = m.startProgress
        + (now - m.startDate) / (endTime m - m.startDate) * (m.maxProgress - m.startProgress) := by
  unfold endTime at h2 ⊢
  have hT : 0 < m.startDate + (m.durationDays * 24 * 60 * 60 * 1000) - m.startDate := by
    linarith
  have hfrac : (now - m.startDate)
      / (m.startDate + (m.durationDays * 24 * 60 * 60 * 1000) - m.startDate) ≤ 1 := by
    rw [div_le_one hT]
    linarith
  have hrange : 0 ≤ m.maxProgress - m.startProgress := by linarith
  have hle : m.startProgress + (now - m.startDate)
      / (m.startDate + (m.durationDays * 24 * 60 * 60 * 1000) - m.startDate)
      * (m.maxProgress - m.startProgress) ≤ m.maxProgress := by
    have := mul_le_mul_of_nonneg_right hfrac hrange
    linarith
  unfold calculateCurrentProgress
  simp only [not_lt.mpr h1, ge_iff_le, not_le.mpr h2, if_false]
  exact min_eq_left hle

/-- Before the start date the method returns `startProgress`. -/
theorem calculateCurrentProgress_before (m : TokenAllocationProgress) (now : ℚ)
    (h : now < m.startDate) : calculateCurrentProgress m now = m.startProgress := by
  unfold calculateCurrentProgress
  simp [h]

/-- From the end date on the method returns `maxProgress`. -/
theorem calculateCurrentProgress_after (m : TokenAllocationProgress) (now : ℚ)
    (hd : 0 < m.durationDays) (h : endTime m ≤ now) :
    calculateCurrentProgress m now = m.maxProgress := by
  unfold endTime at h
  have h1 : ¬ now < m.startDate := by
    have : 0 < m.durationDays * 24 * 60 * 60 * 1000 := by positivity
    push_neg
    linarith
  unfold calculateCurrentProgress
  simp [h1, h]

/-- For a model with `startProgress ≤ maxProgress` and positive duration the
returned percent lies between the two. -/
theorem calculateCurrentProgress_bounds (m : TokenAllocationProgress) (now : ℚ)
    (hd : 0 < m.durationDays) (hr : m.startProgress ≤ m.maxProgress) :
    m.startProgress ≤ calculateCurrentProgress m now ∧
    calculateCurrentProgress m now ≤ m.maxProgress := by
  by_cases h1 : now < m.startDate
  · rw [calculateCurrentProgress_before m now h1]
    exact ⟨le_refl _, hr⟩
  · by_cases h2 : endTime m ≤ now
    · rw [calculateCurrentProgress_after m now hd h2]
      exact ⟨hr, le_refl _⟩
    · push_neg at h1 h2
      have hT : 0 < endTime m - m.startDate := by linarith
      have hfrac0 : 0 ≤ (now - m.startDate) / (endTime m - m.startDate) :=
        div_nonneg (by linarith) (le_of_lt hT)
      have hfrac1 : (now - m.startDate) / (endTime m - m.startDate) ≤ 1 := by
        rw [div_le_one hT]
        linarith
      have hrange : 0 ≤ m.maxProgress - m.startProgress := by linarith
      rw [calculateCurrentProgress_ramp m now hr h1 h2]
      have hlo := mul_nonneg hfrac0 hrange
      have hhi := mul_le_mul_of_nonneg_right hfrac1 hrange
      constructor <;> linarith

end TokenAllocationProgress

namespace TokenAllocationProgress

/-- The `left` count of a snapshot is `totalTokens - sold`. -/
theorem updateProgress_left_eq (m : TokenAllocationProgress) (now : ℚ) :
    (updateProgress m now).left = m.totalTokens - (updateProgress m now).sold := rfl

/-- Claim C7.  The allocation percent is monotone in time: for a model with
positive duration and `startProgress ≤ maxProgress`, and timestamps
`now1 ≤ now2`, `calculateCurrentProgress` at `now1` is at most its value at
`now2`, whichever branches the two timestamps fall in. -/
theorem calculateCurrentProgress_monotone (m : TokenAllocationProgress) (now1 now2 : ℚ)
    (hd : 0 < m.durationDays) (hr : m.startProgress ≤ m.maxProgress) (h : now1 ≤ now2) :
    calculateCurrentProgress m now1 ≤ calculateCurrentProgress m now2 := by
  by_cases h1 : now1 < m.startDate
  · rw [calculateCurrentProgress_before m now1 h1]
    exact (calculateCurrentProgress_bounds m now2 hd hr).1
  · by_cases h2 : endTime m ≤ now2
    · rw [calculateCurrentProgress_after m now2 hd h2]
      exact (calculateCurrentProgress_bounds m now1 hd hr).2
    · push_neg at h1 h2
      have hT : 0 < endTime m - m.startDate := by linarith
      have hrange : 0 ≤ m.maxProgress - m.startProgress := by linarith
      rw [calculateCurrentProgress_ramp m now1 hr h1 (lt_of_le_of_lt h h2),
        calculateCurrentProgress_ramp m now2 hr (le_trans h1 h) h2]
      have hfrac : (now1 - m.startDate) / (endTime m - m.startDate)
          ≤ (now2 - m.startDate) / (endTime m - m.startDate) :=
        div_le_div_of_nonneg_right (by linarith) (le_of_lt hT)
      have := mul_le_mul_of_nonneg_right hfrac hrange
      linarith

/-- Witness for C7: the configured model ten and twenty days after a start
date of 0. -/
theorem calculateCurrentProgress_monotone_witness :
    (0 : ℚ) < (constructor 0).durationDays ∧
    (constructor 0).startProgress ≤ (constructor 0).maxProgress ∧
    (864000000 : ℚ) ≤ 1728000000 ∧
    calculateCurrentProgress (constructor 0) 864000000
      ≤ calculateCurrentProgress (constructor 0) 1728000000 :=
  ⟨by norm_num [constructor], by norm_num [constructor], by norm_num,
   calculateCurrentProgress_monotone (constructor 0) 864000000 1728000000
     (by norm_num [constructor]) (by norm_num [constructor]) (by norm_num)⟩

/-- Claim C8.  For a model with positive duration and
`startProgress ≤ maxProgress` the percent returned by
`calculateCurrentProgress` lies in `[startProgress, maxProgress]` at every
timestamp; it is `startProgress` for every `now ≤ startTime`, the start itself
included, and `maxProgress` for every `now ≥ startTime + duration`. -/
theorem calculateCurrentProgress_range (m : TokenAllocationProgress) (now : ℚ)
    (hd : 0 < m.durationDays) (hr : m.startProgress ≤ m.maxProgress) :
    (m.startProgress ≤ calculateCurrentProgress m now ∧
      calculateCurrentProgress m now ≤ m.maxProgress) ∧
    (now ≤ m.startDate → calculateCurrentProgress m now = m.startProgress) ∧
    (m.startDate + (m.durationDays * 24 * 60 * 60 * 1000) ≤ now →
      calculateCurrentProgress m now = m.maxProgress) := by
  refine ⟨calculateCurrentProgress_bounds m now hd hr, ?_, ?_⟩
  · intro h
    rcases lt_or_eq_of_le h with hlt | heq
    · exact calculateCurrentProgress_before m now hlt
    · have hpos : 0 < m.durationDays * 24 * 60 * 60 * 1000 := by positivity
      have hend : now < endTime m := by
        unfold endTime
        linarith
      rw [calculateCurrentProgress_ramp m now hr (le_of_eq heq.symm) hend, heq]
      simp
  · intro h
    exact calculateCurrentProgress_after m now hd h

/-- Witness for C8: the configured model exactly at its start date. -/
theorem calculateCurrentProgress_range_witness :
    (0 : ℚ) < (constructor 0).durationDays ∧
    (constructor 0).startProgress ≤ (constructor 0).maxProgress ∧
    calculateCurrentProgress (constructor 0) 0 = (constructor 0).startProgress :=
  ⟨by norm_num [constructor], by norm_num [constructor],
   (calculateCurrentProgress_range (constructor 0) 0
     (by norm_num [constructor]) (by norm_num [constructor])).2.1 (le_refl _)⟩

/-- Claim C10.  For a model with positive duration and
`startProgress ≤ maxProgress` and a timestamp with
`startTime ≤ now < endTime`, `calculateCurrentProgress` returns exactly
`startProgress + (now - startTime) / (endTime - startTime) *
(maxProgress - startProgress)`: the final clamp does not change the
interpolated value.  For the configured model, 22.5 days after any start date
the percent is 70, with 70000 sold and 30000 left. -/
theorem calculateCurrentProgress_interpolates (m : TokenAllocationProgress) (now : ℚ)
    (_hd : 0 < m.durationDays) (hr : m.startProgress ≤ m.maxProgress)
    (h1 : m.startDate ≤ now) (h2 : now < m.startDate + (m.durationDays * 24 * 60 * 60 * 1000)) :
    calculateCurrentProgress m now
      = m.startProgress
        + (now - m.startDate)
          / (m.startDate + (m.durationDays * 24 * 60 * 60 * 1000) - m.startDate)
          * (m.maxProgress - m.startProgress) ∧
    (∀ T : ℚ,
      (updateProgress (constructor T) (T + 45 / 2 * 24 * 60 * 60 * 1000)).currentProgress = 70 ∧
      (updateProgress (constructor T) (T + 45 / 2 * 24 * 60 * 60 * 1000)).sold = 70000 ∧
      (updateProgress (constructor T) (T + 45 / 2 * 24 * 60 * 60 * 1000)).left = 30000) := by
  refine ⟨calculateCurrentProgress_ramp m now hr h1 h2, ?_⟩
  intro T
  have hp : calculateCurrentProgress (constructor T) (T + 45 / 2 * 24 * 60 * 60 * 1000) = 70 := by
    rw [calculateCurrentProgress_ramp (constructor T) _ (by norm_num [constructor])
      (by norm_num [constructor]) (by norm_num [constructor, endTime])]
    norm_num [constructor, endTime]
  have hs : (updateProgress (constructor T) (T + 45 / 2 * 24 * 60 * 60 * 1000)).sold = 70000 := by
    simp only [updateProgress, hp]
    norm_num [constructor]
  refine ⟨hp, hs, ?_⟩
  have hl := (updateProgress_left_eq (constructor T) (T + 45 / 2 * 24 * 60 * 60 * 1000))
  rw [hl, hs]
  norm_num [constructor]

/-- Witness for C10: the configured model ten days after a start date of 0. -/
theorem calculateCurrentProgress_interpolates_witness :
    (0 : ℚ) < (constructor 0).durationDays ∧
    (constructor 0).startProgress ≤ (constructor 0).maxProgress ∧
    (constructor 0).startDate ≤ 864000000 ∧
    calculateCurrentProgress (constructor 0) 864000000
      = (constructor 0).startProgress
        + (864000000 - (constructor 0).startDate)
          / ((constructor 0).startDate + ((constructor 0).durationDays * 24 * 60 * 60 * 1000)
              - (constructor 0).startDate)
          * ((constructor 0).maxProgress - (constructor 0).startProgress) :=
  ⟨by norm_num [constructor], by norm_num [constructor], by norm_num [constructor],
   (calculateCurrentProgress_interpolates (constructor 0) 864000000
     (by norm_num [constructor]) (by norm_num [constructor]) (by norm_num [constructor])
     (by norm_num [constructor])).1⟩

end TokenAllocationProgress

/-! ## Address formatting -/

namespace JSString

/-- The call `substring(0, 5)` yields the first five code units, or the whole
string when it is shorter. -/
theorem substring_zero_five (s : JSString) : substring s 0 5 = s.take 5 := by
  unfold substring
  have h0 : min (min (max (0 : Int) 0) (s.length : Int)) (min (max (5 : Int) 0) (s.length : Int))
      = 0 := by omega
  have h1 : (max (min (max (0 : Int) 0) (s.length : Int))
      (min (max (5 : Int) 0) (s.length : Int))).toNat = min 5 s.length := by omega
  simp only [h0, h1, Int.toNat_zero, List.drop_zero, Nat.sub_zero]
  rw [List.take_eq_take]
  simp

/-- The call `substring(length - 3)` yields the last three code units, or the
whole string when it is shorter. -/
theorem substringFrom_length_sub_three (s : JSString) :
    substringFrom s ((s.length : Int) - 3) = s.drop (s.length - 3) := by
  unfold substringFrom substring
  have h0 : (min (min (max ((s.length : Int) - 3) 0) (s.length : Int))
      (min (max (s.length : Int) 0) (s.length : Int))).toNat = s.length - 3 := by omega
  have h1 : (max (min (max ((s.length : Int) - 3) 0) (s.length : Int))
      (min (max (s.length : Int) 0) (s.length : Int))).toNat = s.length := by omega
  simp only [h0, h1]
  apply List.take_of_length_le
  simp

end JSString

namespace Wallet

/-- Claim C11, evaluated on the code.  The calculator method returns an address
of fewer than 8 code units unchanged and otherwise its first 5 code units,
three dots and its last 3 code units.  The helper of `wallet.js` has no
length test: it builds the dotted form for every address, so its result is
always longer than a short address and never the address itself; on `abc` it
returns `abc...abc` where the method returns `abc`. -/
theorem formatAddress_no_length_test :
    (∀ addr : JSString, ConversionCalculator.formatAddress addr
      = if addr.length < 8 then addr
        else addr.take 5 ++ JSString.dots ++ addr.drop (addr.length - 3)) ∧
    (∀ addr : JSString, formatAddress addr
      = addr.take 5 ++ JSString.dots ++ addr.drop (addr.length - 3)) ∧
    (∀ addr : JSString, (formatAddress addr).length
      = min 5 addr.length + 3 + min 3 addr.length) ∧
    formatAddress ['a', 'b', 'c'] = ['a', 'b', 'c', '.', '.', '.', 'a', 'b', 'c'] ∧
    ConversionCalculator.formatAddress ['a', 'b', 'c'] = ['a', 'b', 'c'] := by
  have hw : ∀ addr : JSString, formatAddress addr
      = addr.take 5 ++ JSString.dots ++ addr.drop (addr.length - 3) := by
    intro addr
    unfold formatAddress
    rw [JSString.substring_zero_five, JSString.substringFrom_length_sub_three]
  refine ⟨?_, hw, ?_, by decide, by decide⟩
  · intro addr
    unfold ConversionCalculator.formatAddress
    by_cases h : addr.length < 8
    · simp [h]
    · have hne : addr ≠ [] := by
        intro he
        apply h
        rw [he]
        decide
      simp only [hne, h, or_self, if_false]
      rw [JSString.substring_zero_five, JSString.substringFrom_length_sub_three]
  · intro addr
    rw [hw]
    simp only [List.length_append, List.length_take, List.length_drop, JSString.dots,
      List.length_cons, List.length_nil]
    omega

end Wallet

/-! ## The below-minimum branch -/

namespace ConversionCalculator

/-- Claim C13.  For a positive amount and SOL and discounted prices that are
not negative, the below-minimum branch of `calculateConversion` is taken only
when both prices are positive and finite, so the division by `solPrice` that
computes `minSolRequired` there is not a division by zero. -/
theorem belowMinimum_prices_positive (c : ConversionCalculator) (parsed : JSNum)
    (_ha : JSNum.gt parsed (JSNum.fin 0) = true)
    (hp : JSNum.le (JSNum.fin 0) c.solPrice = true)
    (hd : JSNum.le (JSNum.fin 0) c.tslaDiscountedPrice = true)
    (hb : (calculateConversion c parsed).belowMinimum = true) :
    JSNum.gt c.solPrice (JSNum.fin 0) = true ∧
    JSNum.gt c.tslaDiscountedPrice (JSNum.fin 0) = true ∧
    c.solPrice ≠ JSNum.fin 0 ∧
    (∃ p d : ℚ, c.solPrice = JSNum.fin p ∧ c.tslaDiscountedPrice = JSNum.fin d ∧
      0 < p ∧ 0 < d) ∧
    (calculateConversion c parsed).minSolRequired
      = some (JSNum.div (JSNum.mul c.minTSLA c.tslaDiscountedPrice) c.solPrice) := by
  obtain ⟨a, p, d, _, hsp, hdp, _, hp0, hd0, _⟩ := belowMinimum_finite c parsed hb
  have hppos : 0 < p := by
    rw [hsp] at hp
    have : 0 ≤ p := by simpa [JSNum.le] using hp
    exact lt_of_le_of_ne this (Ne.symm hp0)
  have hdpos : 0 < d := by
    rw [hdp] at hd
    have : 0 ≤ d := by simpa [JSNum.le] using hd
    exact lt_of_le_of_ne this (Ne.symm hd0)
  have hmin : (calculateConversion c parsed).minSolRequired
      = some (JSNum.div (JSNum.mul c.minTSLA c.tslaDiscountedPrice) c.solPrice) := by
    unfold calculateConversion at hb ⊢
    simp only at hb ⊢
    split_ifs at hb ⊢
    rfl
  refine ⟨?_, ?_, ?_, ⟨p, d, hsp, hdp, hppos, hdpos⟩, hmin⟩
  · rw [hsp]
    simpa [JSNum.gt, JSNum.lt] using hppos
  · rw [hdp]
    simpa [JSNum.gt, JSNum.lt] using hdpos
  · rw [hsp]
    simpa using hp0

/-- Witness for C13: the amount 0.4 at prices 150, 300 and 150. -/
theorem belowMinimum_prices_positive_witness :
    JSNum.gt (JSNum.fin (2 / 5)) (JSNum.fin 0) = true ∧
    (calculateConversion ⟨JSNum.fin (1 / 2), JSNum.fin (1 / 4000), JSNum.fin 150,
        JSNum.fin 300, JSNum.fin 150, true⟩ (JSNum.fin (2 / 5))).belowMinimum = true ∧
    JSNum.gt (JSNum.fin 150) (JSNum.fin 0) = true :=
  have hb : (calculateConversion ⟨JSNum.fin (1 / 2), JSNum.fin (1 / 4000), JSNum.fin 150,
      JSNum.fin 300, JSNum.fin 150, true⟩ (JSNum.fin (2 / 5))).belowMinimum = true :=
    (belowMinimum_fin (JSNum.fin (1 / 4000)) (JSNum.fin 300) true (1 / 2) (2 / 5) 150 150
      (by norm_num) (by norm_num)).1.mpr (by norm_num)
  ⟨by simp [JSNum.gt, JSNum.lt], hb,
   (belowMinimum_prices_positive ⟨JSNum.fin (1 / 2), JSNum.fin (1 / 4000), JSNum.fin 150,
      JSNum.fin 300, JSNum.fin 150, true⟩ (JSNum.fin (2 / 5))
      (by simp [JSNum.gt, JSNum.lt]) (by simp [JSNum.le]) (by simp [JSNum.le]) hb).1⟩

end ConversionCalculator

/-! ## Helper lemmas on binary64 rounding -/

namespace Float64

/-- The halving count brackets its argument between two powers of two, given
enough fuel. -/
theorem log2Fuel_spec (fuel : ℕ) : ∀ n : ℕ, n ≤ fuel → 1 ≤ n →
    2 ^ log2Fuel fuel n ≤ n ∧ n < 2 ^ (log2Fuel fuel n + 1) := by
  induction fuel with
  | zero =>
    intro n h0 h1
    omega
  | succ fuel ih =>
    intro n hn h1
    unfold log2Fuel
    split_ifs with h2
    · have hhalf : n / 2 ≤ fuel := by omega
      have hone : 1 ≤ n / 2 := by omega
      obtain ⟨hlo, hhi⟩ := ih (n / 2) hhalf hone
      rw [pow_succ] at hhi
      rw [pow_succ, pow_succ, pow_succ]
      constructor <;> omega
    · have : n = 1 := by omega
      subst this
      simp

/-- The binary logarithm brackets a positive natural number. -/
theorem log2_spec (n : ℕ) (h : 1 ≤ n) : 2 ^ log2 n ≤ n ∧ n < 2 ^ (log2 n + 1) :=
  log2Fuel_spec n n (le_refl n) h

/-- The binary exponent gives a power of two that does not exceed the
magnitude. -/
theorem two_zpow_binExp_le (q : ℚ) (hq : q ≠ 0) : (2 : ℚ) ^ binExp q ≤ |q| := by
  unfold binExp
  split_ifs with h
  · exact h
  · have hnum : 1 ≤ q.num.natAbs := Nat.one_le_iff_ne_zero.mpr (by simpa using hq)
    have hden : 1 ≤ q.den := q.den_pos
    have h1 := (log2_spec q.num.natAbs hnum).1
    have h2 := (log2_spec q.den hden).2
    have habs : |q| = (q.num.natAbs : ℚ) / (q.den : ℚ) := by
      have hn : ((q.num.natAbs : ℕ) : ℚ) = |(q.num : ℚ)| := by
        rw [Nat.cast_natAbs, Int.cast_abs]
      conv_lhs => rw [← Rat.num_div_den q]
      rw [abs_div, Nat.abs_cast, hn]
    have h1q : (2 : ℚ) ^ (log2 q.num.natAbs) ≤ (q.num.natAbs : ℚ) := by exact_mod_cast h1
    have h2q : (q.den : ℚ) ≤ (2 : ℚ) ^ (log2 q.den + 1) := by exact_mod_cast le_of_lt h2
    have hdpos : (0 : ℚ) < q.den := by exact_mod_cast q.den_pos
    rw [habs, le_div_iff₀ hdpos]
    calc (2 : ℚ) ^ ((log2 q.num.natAbs : ℤ) - (log2 q.den : ℤ) - 1) * (q.den : ℚ)
        ≤ (2 : ℚ) ^ ((log2 q.num.natAbs : ℤ) - (log2 q.den : ℤ) - 1)
            * (2 : ℚ) ^ (log2 q.den + 1) :=
          mul_le_mul_of_nonneg_left h2q (by positivity)
      _ = (2 : ℚ) ^ (log2 q.num.natAbs) := by
          rw [← zpow_natCast (2 : ℚ) (log2 q.den + 1), ← zpow_add₀ (by norm_num : (2 : ℚ) ≠ 0),
            ← zpow_natCast]
          congr 1
          push_cast
          ring
      _ ≤ (q.num.natAbs : ℚ) := h1q

/-- An integer rounds to itself. -/
theorem roundHalfEven_intCast (k : ℤ) : roundHalfEven (k : ℚ) = k := by
  unfold roundHalfEven
  simp

/-- Rounding to the nearest integer does not pass an integer above. -/
theorem roundHalfEven_le (x : ℚ) (k : ℤ) (h : x ≤ k) : roundHalfEven x ≤ k := by
  have hf : Int.floor x ≤ k := Int.floor_le_floor h |>.trans (by simp)
  rcases lt_or_eq_of_le hf with hlt | heq
  · unfold roundHalfEven
    split_ifs <;> omega
  · have hx : x = k := by
      apply le_antisymm h
      rw [← heq]
      exact Int.floor_le x
    rw [hx, roundHalfEven_intCast]

/-- Rounding to the nearest integer does not pass an integer below. -/
theorem le_roundHalfEven (x : ℚ) (k : ℤ) (h : (k : ℚ) ≤ x) : k ≤ roundHalfEven x := by
  have hf : k ≤ Int.floor x := Int.le_floor.mpr h
  unfold roundHalfEven
  split_ifs <;> omega

/-- The binary64 value of a real number is never NaN. -/
theorem round_ne_nan (q : ℚ) : round q ≠ JSNum.nan := by
  unfold round
  split_ifs <;> simp

end Float64

namespace Float64

/-- A value whose rounded multiple of the unit in the last place stays inside
the finite range rounds to that multiple. -/
theorem round_eq_fin (q : ℚ) (hq : q ≠ 0) (v : ℚ)
    (hv : v = (roundHalfEven (q / 2 ^ ulpExp q) : ℚ) * 2 ^ ulpExp q)
    (hlo : -(2 : ℚ) ^ (1024 : ℕ) < v) (hhi : v < (2 : ℚ) ^ (1024 : ℕ)) :
    round q = JSNum.fin v := by
  unfold round
  rw [if_neg hq, ← hv, if_neg (not_le.mpr hhi), if_neg (not_le.mpr hlo)]

/-- From a positive exponent of the unit in the last place on, the magnitude
is at least `2 ^ 53`. -/
theorem two_pow_53_le_of_ulpExp_pos (q : ℚ) (hq : q ≠ 0) (hu : 0 < ulpExp q) :
    (2 : ℚ) ^ (53 : ℕ) ≤ |q| := by
  have hb : (53 : ℤ) ≤ binExp q := by
    unfold ulpExp at hu
    rcases max_cases (binExp q) (-1022) with ⟨h1, _⟩ | ⟨h1, _⟩ <;> rw [h1] at hu <;> omega
  calc (2 : ℚ) ^ (53 : ℕ) = (2 : ℚ) ^ (53 : ℤ) := by norm_num
    _ ≤ (2 : ℚ) ^ binExp q := zpow_le_zpow_right₀ (by norm_num) hb
    _ ≤ |q| := two_zpow_binExp_le q hq

/-- A natural number up to `2 ^ 53` is a binary64 value. -/
theorem round_natCast (n : ℕ) (hn : n ≤ 2 ^ 53) : round (n : ℚ) = JSNum.fin (n : ℚ) := by
  by_cases h0 : n = 0
  · subst h0
    simp [round]
  have hq : (n : ℚ) ≠ 0 := by exact_mod_cast h0
  have hnq : (n : ℚ) ≤ (2 : ℚ) ^ (53 : ℕ) := by exact_mod_cast hn
  by_cases hu : ulpExp (n : ℚ) ≤ 0
  · obtain ⟨j, hj⟩ : ∃ j : ℕ, ulpExp (n : ℚ) = -(j : ℤ) := ⟨(-ulpExp (n : ℚ)).toNat, by omega⟩
    have hscaled : (n : ℚ) / 2 ^ ulpExp (n : ℚ) = ((n * 2 ^ j : ℕ) : ℤ) := by
      rw [hj, zpow_neg, zpow_natCast]
      push_cast
      field_simp
    apply round_eq_fin _ hq
    · rw [hscaled, roundHalfEven_intCast, hj, zpow_neg, zpow_natCast]
      push_cast
      field_simp
    · have : (0 : ℚ) ≤ n := Nat.cast_nonneg n
      have h2 : (0 : ℚ) < (2 : ℚ) ^ (1024 : ℕ) := by positivity
      linarith
    · calc (n : ℚ) ≤ (2 : ℚ) ^ (53 : ℕ) := hnq
        _ < (2 : ℚ) ^ (1024 : ℕ) := by norm_num
  · have h53 := two_pow_53_le_of_ulpExp_pos (n : ℚ) hq (not_le.mp hu)
    rw [Nat.abs_cast] at h53
    have hn53 : n = 2 ^ 53 := by
      apply le_antisymm hn
      exact_mod_cast h53
    subst hn53
    decide!

/-- A value between zero and a natural number up to `2 ^ 53` rounds to a
finite value in the same interval. -/
theorem round_mem_Icc (q : ℚ) (n : ℕ) (h0 : 0 ≤ q) (hqn : q ≤ n) (hn : n ≤ 2 ^ 53) :
    ∃ v : ℚ, round q = JSNum.fin v ∧ 0 ≤ v ∧ v ≤ n := by
  by_cases hq : q = 0
  · subst hq
    exact ⟨0, by simp [round], le_refl _, Nat.cast_nonneg n⟩
  have hnq : (n : ℚ) ≤ (2 : ℚ) ^ (53 : ℕ) := by exact_mod_cast hn
  by_cases hu : ulpExp q ≤ 0
  · obtain ⟨j, hj⟩ : ∃ j : ℕ, ulpExp q = -(j : ℤ) := ⟨(-ulpExp q).toNat, by omega⟩
    have hpow : (0 : ℚ) < (2 : ℚ) ^ j := by positivity
    have hscaled : q / 2 ^ ulpExp q = q * 2 ^ j := by
      rw [hj, zpow_neg, zpow_natCast]
      field_simp
    have hm0 : (0 : ℤ) ≤ roundHalfEven (q / 2 ^ ulpExp q) := by
      apply le_roundHalfEven
      rw [hscaled]
      push_cast
      positivity
    have hm1 : roundHalfEven (q / 2 ^ ulpExp q) ≤ ((n * 2 ^ j : ℕ) : ℤ) := by
      apply roundHalfEven_le
      rw [hscaled]
      push_cast
      exact mul_le_mul_of_nonneg_right hqn (le_of_lt hpow)
    have hm0q : (0 : ℚ) ≤ (roundHalfEven (q / 2 ^ ulpExp q) : ℚ) := by exact_mod_cast hm0
    have hm1q : (roundHalfEven (q / 2 ^ ulpExp q) : ℚ) ≤ (n : ℚ) * 2 ^ j := by
      exact_mod_cast hm1
    have hv0 : (0 : ℚ) ≤ (roundHalfEven (q / 2 ^ ulpExp q) : ℚ) * 2 ^ ulpExp q := by
      positivity
    have hv1 : (roundHalfEven (q / 2 ^ ulpExp q) : ℚ) * 2 ^ ulpExp q ≤ n := by
      generalize roundHalfEven (q / 2 ^ ulpExp q) = m at hm1q ⊢
      rw [hj, zpow_neg, zpow_natCast, ← div_eq_mul_inv, div_le_iff₀ hpow]
      exact hm1q
    refine ⟨_, round_eq_fin q hq _ rfl ?_ ?_, hv0, hv1⟩
    · have h2 : (0 : ℚ) < (2 : ℚ) ^ (1024 : ℕ) := by positivity
      linarith
    · calc (roundHalfEven (q / 2 ^ ulpExp q) : ℚ) * 2 ^ ulpExp q ≤ n := hv1
        _ ≤ (2 : ℚ) ^ (53 : ℕ) := hnq
        _ < (2 : ℚ) ^ (1024 : ℕ) := by norm_num
  · have h53 := two_pow_53_le_of_ulpExp_pos q hq (not_le.mp hu)
    rw [abs_of_nonneg h0] at h53
    have hqeq : q = (n : ℚ) := le_antisymm hqn (le_trans hnq h53)
    rw [hqeq]
    exact ⟨n, round_natCast n hn, Nat.cast_nonneg n, le_refl _⟩

end Float64

namespace Doubles

/-- With a percent in `[0, 100]` and a token total that is a natural number
up to `2 ^ 53`, the sold count of `updateProgress` is a natural number `k`
not above the total, the floor of the rounded product, and the left count is
the total minus `k`, computed without rounding. -/
theorem updateProgress_counts (m : TokenAllocationProgress) (now p : ℚ) (n : ℕ)
    (hp : calculateCurrentProgress m now = JSNum.fin p) (hp0 : 0 ≤ p) (hp1 : p ≤ 100)
    (hn : n ≤ 2 ^ 53) (htot : m.totalTokens = n) :
    ∃ (x : ℚ) (k : ℕ), k ≤ n ∧
      Float64.mul (Float64.div (JSNum.fin p) (JSNum.fin 100)) (JSNum.fin (n : ℚ)) = JSNum.fin x ∧
      Int.floor x = (k : ℤ) ∧
      (updateProgress m now).sold = JSNum.fin (k : ℚ) ∧
      (updateProgress m now).left = JSNum.fin ((n - k : ℕ) : ℚ) := by
  have hdiv : (0 : ℚ) ≤ p / 100 ∧ p / 100 ≤ ((1 : ℕ) : ℚ) := by
    constructor
    · positivity
    · rw [Nat.cast_one, div_le_one (by norm_num)]
      exact hp1
  obtain ⟨y, hy, hy0, hy1⟩ := Float64.round_mem_Icc (p / 100) 1 hdiv.1 hdiv.2 (by norm_num)
  rw [Nat.cast_one] at hy1
  have hn0 : (0 : ℚ) ≤ n := Nat.cast_nonneg n
  have hyn0 : 0 ≤ y * n := mul_nonneg hy0 hn0
  have hyn1 : y * n ≤ n := by
    calc y * n ≤ 1 * n := mul_le_mul_of_nonneg_right hy1 hn0
      _ = n := one_mul _
  obtain ⟨x, hx, hx0, hx1⟩ := Float64.round_mem_Icc (y * n) n hyn0 hyn1 hn
  have hprod : Float64.mul (Float64.div (JSNum.fin p) (JSNum.fin 100)) (JSNum.fin (n : ℚ))
      = JSNum.fin x := by
    have h100 : (100 : ℚ) ≠ 0 := by norm_num
    simp only [Float64.div, Float64.mul, JSNum.div, h100, if_false, Float64.ofExact, hy,
      JSNum.mul, hx]
  have hf0 : (0 : ℤ) ≤ Int.floor x := Int.floor_nonneg.mpr hx0
  have hf1 : Int.floor x ≤ (n : ℤ) := by
    have : Int.floor x ≤ Int.floor (n : ℚ) := Int.floor_le_floor hx1
    simpa using this
  obtain ⟨k, hk⟩ : ∃ k : ℕ, Int.floor x = (k : ℤ) := ⟨(Int.floor x).toNat, by omega⟩
  have hkn : k ≤ n := by omega
  have hsold : (updateProgress m now).sold = JSNum.fin (k : ℚ) := by
    simp only [updateProgress, hp, htot, hprod, JSNum.floor, hk]
    norm_cast
  refine ⟨x, k, hkn, hprod, hk, hsold, ?_⟩
  have hsub : (n : ℚ) - (k : ℚ) = ((n - k : ℕ) : ℚ) := by
    rw [Nat.cast_sub hkn]
  have hleft : (updateProgress m now).left
      = Float64.sub (JSNum.fin m.totalTokens) (updateProgress m now).sold := rfl
  rw [hleft, hsold, htot]
  simp only [Float64.sub, JSNum.sub, Float64.ofExact, hsub]
  exact Float64.round_natCast (n - k) (le_trans (Nat.sub_le n k) hn)

end Doubles

/-! ## The price sync -/

namespace JSNum

/-- A number other than NaN equals itself under `==`. -/
theorem eq_self_of_ne_nan (x : JSNum) (h : x ≠ nan) : eq x x = true := by
  rcases x with _ | _ | _ | q
  · exact absurd rfl h
  · simp [eq]
  · simp [eq]
  · simp [eq]

end JSNum

namespace Float64

/-- Half of a positive double is a number, not NaN. -/
theorem mul_half_ne_nan (t : JSNum) (h : JSNum.gt t (JSNum.fin 0) = true) :
    mul t (JSNum.fin (1 / 2)) ≠ JSNum.nan := by
  rcases t with _ | _ | _ | q
  · simp [JSNum.gt, JSNum.lt] at h
  · simp [mul, JSNum.mul, JSNum.infOfSign, ofExact]
  · simp [JSNum.gt, JSNum.lt] at h
  · simp only [mul, JSNum.mul, ofExact]
    exact round_ne_nan _

end Float64

namespace ConversionCalculator

/-- What one tick does to the state and to the interval, by cases on the page
read. -/
theorem checkPrices_eq (c : ConversionCalculator) (solInput : Bool) (page : PageRead) :
    checkPrices c solInput page =
      match page.prices with
      | none => (c, false)
      | some (t, s) =>
        if JSNum.gt t (JSNum.fin 0) && JSNum.gt s (JSNum.fin 0) then
          (⟨c.minTSLA, c.networkFee, s, t, Float64.mul t (JSNum.fin (1 / 2)),
              c.validationMsg⟩, solInput)
        else
          (⟨c.minTSLA, c.networkFee, s, t, c.tslaDiscountedPrice, c.validationMsg⟩, false) := by
  unfold checkPrices calculateConversionCall
  rcases hp : page.prices with _ | ⟨t, s⟩
  · rfl
  · cases solInput <;>
      by_cases hg : (JSNum.gt t (JSNum.fin 0) && JSNum.gt s (JSNum.fin 0)) = true <;>
      simp [hg]

/-- On a page with the input element, from a state whose discounted price is
still zero, every run of ticks ends either with the discounted price still
zero or right after the tick that saw two positive prices and set the
discounted price to half the TSLA price. -/
theorem startPriceSync_from_zero (pages : List PageRead)
    (c : ConversionCalculator) (h0 : c.tslaDiscountedPrice = JSNum.fin 0) :
    (startPriceSync c true pages).tslaDiscountedPrice = JSNum.fin 0 ∨
    (JSNum.gt (startPriceSync c true pages).tslaPrice (JSNum.fin 0) = true ∧
      JSNum.gt (startPriceSync c true pages).solPrice (JSNum.fin 0) = true ∧
      JSNum.eq (startPriceSync c true pages).tslaDiscountedPrice
        (Float64.mul (startPriceSync c true pages).tslaPrice (JSNum.fin (1 / 2))) = true) := by
  induction pages generalizing c with
  | nil => exact Or.inl h0
  | cons page rest ih =>
    unfold startPriceSync
    rw [checkPrices_eq]
    rcases hp : page.prices with _ | ⟨t, s⟩
    · simp only [Bool.false_eq_true, if_false]
      exact ih c h0
    · by_cases hg : (JSNum.gt t (JSNum.fin 0) && JSNum.gt s (JSNum.fin 0)) = true
      · have hts := hg
        simp only [Bool.and_eq_true] at hts
        simp only [hg, if_true]
        exact Or.inr ⟨hts.1, hts.2,
          JSNum.eq_self_of_ne_nan _ (Float64.mul_half_ne_nan t hts.1)⟩
      · simp only [hg, Bool.false_eq_true, if_false]
        exact ih _ h0

/-- On any page, a run of ticks keeps the discounted price either zero or half
of a positive TSLA price that some tick has read. -/
theorem startPriceSync_half_of_read (solInput : Bool) (pages : List PageRead)
    (c : ConversionCalculator)
    (h0 : c.tslaDiscountedPrice = JSNum.fin 0 ∨
      ∃ t : JSNum, JSNum.gt t (JSNum.fin 0) = true ∧
        c.tslaDiscountedPrice = Float64.mul t (JSNum.fin (1 / 2))) :
    (startPriceSync c solInput pages).tslaDiscountedPrice = JSNum.fin 0 ∨
      ∃ t : JSNum, JSNum.gt t (JSNum.fin 0) = true ∧
        (startPriceSync c solInput pages).tslaDiscountedPrice
          = Float64.mul t (JSNum.fin (1 / 2)) := by
  induction pages generalizing c with
  | nil => exact h0
  | cons page rest ih =>
    unfold startPriceSync
    rw [checkPrices_eq]
    rcases hp : page.prices with _ | ⟨t, s⟩
    · simp only [Bool.false_eq_true, if_false]
      exact ih c h0
    · by_cases hg : (JSNum.gt t (JSNum.fin 0) && JSNum.gt s (JSNum.fin 0)) = true
      · have hts := hg
        simp only [Bool.and_eq_true] at hts
        simp only [hg, if_true]
        split_ifs
        · exact Or.inr ⟨t, hts.1, rfl⟩
        · exact ih _ (Or.inr ⟨t, hts.1, rfl⟩)
      · simp only [hg, Bool.false_eq_true, if_false]
        exact ih _ h0

end ConversionCalculator

namespace ConversionCalculator

/-- Claim C12 as stated fails.  On a page with the input element, from the
state of the constructor, a tick that reads a TSLA price of 300 while the SOL
text does not yet parse stores the TSLA price and leaves the discounted price
at 0, which is not half of 300.  On a page without the input element the
successful tick throws before `clearInterval`, so after the reads (300, 150)
and (310, NaN) the TSLA price is 310 and the discounted price 150. -/
theorem priceSync_discount_counterexample :
    (startPriceSync (constructor true) true
        [⟨some (JSNum.fin 300, JSNum.nan), JSNum.nan⟩]).tslaPrice = JSNum.fin 300 ∧
    (startPriceSync (constructor true) true
        [⟨some (JSNum.fin 300, JSNum.nan), JSNum.nan⟩]).tslaDiscountedPrice = JSNum.fin 0 ∧
    JSNum.eq
      (startPriceSync (constructor true) true
        [⟨some (JSNum.fin 300, JSNum.nan), JSNum.nan⟩]).tslaDiscountedPrice
      (Float64.mul
        (startPriceSync (constructor true) true
          [⟨some (JSNum.fin 300, JSNum.nan), JSNum.nan⟩]).tslaPrice
        (JSNum.fin (1 / 2))) = false ∧
    (startPriceSync (constructor true) false
        [⟨some (JSNum.fin 300, JSNum.fin 150), JSNum.nan⟩,
         ⟨some (JSNum.fin 310, JSNum.nan), JSNum.nan⟩]).tslaPrice = JSNum.fin 310 ∧
    (startPriceSync (constructor true) false
        [⟨some (JSNum.fin 300, JSNum.fin 150), JSNum.nan⟩,
         ⟨some (JSNum.fin 310, JSNum.nan), JSNum.nan⟩]).tslaDiscountedPrice = JSNum.fin 150 := by
  refine ⟨by decide!, by decide!, by decide!, by decide!, by decide!⟩

/-- Claim C12 as amended.  A tick that finds both price elements stores the two
parsed prices; when both are positive it sets the discounted price to the TSLA
price times 0.5, and otherwise it leaves the discounted price unchanged; it
clears the interval exactly when both are positive and the following call of
`calculateConversion` does not throw, that is, on a page with the input
element.  A tick that misses a price element changes nothing.  So on a page
with the input element, starting from the state of the constructor, after
every run of ticks the discounted price is either still 0 or equal to the
TSLA price times 0.5 with both prices positive; on any page it is 0 or half
of a positive TSLA price read by some tick. -/
theorem priceSync_discount (v solInput : Bool) (pages : List PageRead)
    (c : ConversionCalculator) (t s x : JSNum) :
    ((checkPrices c solInput ⟨some (t, s), x⟩).1.tslaPrice = t ∧
      (checkPrices c solInput ⟨some (t, s), x⟩).1.solPrice = s ∧
      (checkPrices c solInput ⟨some (t, s), x⟩).1.tslaDiscountedPrice
        = (if JSNum.gt t (JSNum.fin 0) && JSNum.gt s (JSNum.fin 0)
            then Float64.mul t (JSNum.fin (1 / 2)) else c.tslaDiscountedPrice) ∧
      (checkPrices c solInput ⟨some (t, s), x⟩).2
        = (JSNum.gt t (JSNum.fin 0) && JSNum.gt s (JSNum.fin 0) && solInput)) ∧
    checkPrices c solInput ⟨none, x⟩ = (c, false) ∧
    ((startPriceSync (constructor v) true pages).tslaDiscountedPrice = JSNum.fin 0 ∨
      (JSNum.gt (startPriceSync (constructor v) true pages).tslaPrice (JSNum.fin 0) = true ∧
        JSNum.gt (startPriceSync (constructor v) true pages).solPrice (JSNum.fin 0) = true ∧
        JSNum.eq (startPriceSync (constructor v) true pages).tslaDiscountedPrice
          (Float64.mul (startPriceSync (constructor v) true pages).tslaPrice
            (JSNum.fin (1 / 2))) = true)) ∧
    ((startPriceSync (constructor v) solInput pages).tslaDiscountedPrice = JSNum.fin 0 ∨
      ∃ r : JSNum, JSNum.gt r (JSNum.fin 0) = true ∧
        (startPriceSync (constructor v) solInput pages).tslaDiscountedPrice
          = Float64.mul r (JSNum.fin (1 / 2))) := by
  refine ⟨?_, ?_, startPriceSync_from_zero pages (constructor v) rfl,
    startPriceSync_half_of_read solInput pages (constructor v) (Or.inl rfl)⟩
  · rw [checkPrices_eq]
    by_cases hg : (JSNum.gt t (JSNum.fin 0) && JSNum.gt s (JSNum.fin 0)) = true
    · simp [hg]
    · simp [hg]
  · rw [checkPrices_eq]

end ConversionCalculator

/-! ## The conversion in double arithmetic -/

namespace Doubles

/-- On a positive amount the method takes the main path: its outputs are the
rounded product, the rounded quotient and the rounded product with the
undiscounted price, and the below-minimum branch is decided by the two strict
comparisons on the rounded quotient. -/
theorem calculateConversion_main_path (c : ConversionCalculator) (parsed : JSNum)
    (h : JSNum.gt parsed (JSNum.fin 0) = true) :
    (calculateConversion c parsed).tslaShares
      = Float64.div (Float64.mul parsed c.solPrice) c.tslaDiscountedPrice ∧
    (calculateConversion c parsed).solUsd = Float64.mul parsed c.solPrice ∧
    (calculateConversion c parsed).tslaUsd
      = Float64.mul (Float64.div (Float64.mul parsed c.solPrice) c.tslaDiscountedPrice)
          c.tslaPrice ∧
    (calculateConversion c parsed).belowMinimum
      = (JSNum.gt (Float64.div (Float64.mul parsed c.solPrice) c.tslaDiscountedPrice)
            (JSNum.fin 0)
          && JSNum.lt (Float64.div (Float64.mul parsed c.solPrice) c.tslaDiscountedPrice)
              c.minTSLA) ∧
    (calculateConversion c parsed).messageShown
      = ((JSNum.gt (Float64.div (Float64.mul parsed c.solPrice) c.tslaDiscountedPrice)
            (JSNum.fin 0)
          && JSNum.lt (Float64.div (Float64.mul parsed c.solPrice) c.tslaDiscountedPrice)
              c.minTSLA) && c.validationMsg) := by
  obtain ⟨hor, hle⟩ := JSNum.or_zero_of_pos parsed h
  unfold calculateConversion
  simp only [hor, hle, Bool.false_eq_true, if_false]
  split_ifs with hb
  · simp [hb]
  · simp [hb]

/-- Claim C3.  For every positive amount and positive SOL and discounted
prices, with `minTSLA = 0.5`, the below-minimum branch of
`calculateConversion` is taken (and, the element existing, the validation
message is shown) if and only if `0 < tslaShares < 0.5`, where `tslaShares` is
`solAmount * solPrice / tslaDiscountedPrice` as the code computes it in
doubles; at `tslaShares = 0.5` exactly it is not.  At the amount 0.1667 with a
SOL price of 150 and a TSLA price of 100.02 the computed shares are exactly
0.5 and no message is shown. -/
theorem belowMinimum_iff_shares (c : ConversionCalculator) (parsed : JSNum)
    (hmin : c.minTSLA = JSNum.fin (1 / 2))
    (ha : JSNum.gt parsed (JSNum.fin 0) = true)
    (_hp : JSNum.gt c.solPrice (JSNum.fin 0) = true)
    (_hd : JSNum.gt c.tslaDiscountedPrice (JSNum.fin 0) = true) :
    (calculateConversion c parsed).tslaShares
      = Float64.div (Float64.mul parsed c.solPrice) c.tslaDiscountedPrice ∧
    ((calculateConversion c parsed).belowMinimum = true ↔
      (JSNum.gt (calculateConversion c parsed).tslaShares (JSNum.fin 0) = true ∧
        JSNum.lt (calculateConversion c parsed).tslaShares (JSNum.fin (1 / 2)) = true)) ∧
    ((calculateConversion c parsed).messageShown = true ↔
      (c.validationMsg = true ∧
        JSNum.gt (calculateConversion c parsed).tslaShares (JSNum.fin 0) = true ∧
        JSNum.lt (calculateConversion c parsed).tslaShares (JSNum.fin (1 / 2)) = true)) ∧
    (∀ s : ℚ, (calculateConversion c parsed).tslaShares = JSNum.fin s →
      ((calculateConversion c parsed).belowMinimum = true ↔ (0 < s ∧ s < 1 / 2))) ∧
    ((calculateConversion c parsed).tslaShares = JSNum.fin (1 / 2) →
      (calculateConversion c parsed).belowMinimum = false ∧
      (calculateConversion c parsed).messageShown = false) ∧
    calculateConversion
        ⟨JSNum.fin (1 / 2), JSNum.fin (1 / 4000), JSNum.fin 150, Float64.round (10002 / 100),
          Float64.mul (Float64.round (10002 / 100)) (JSNum.fin (1 / 2)), true⟩
        (Float64.round (1667 / 10000))
      = ⟨JSNum.fin (1 / 2), Float64.round (25005 / 1000), Float64.round (5001 / 100),
          false, none, false⟩ := by
  obtain ⟨hs, _, _, hb, hm⟩ := calculateConversion_main_path c parsed ha
  refine ⟨hs, ?_, ?_, ?_, ?_, by decide!⟩
  · rw [hb, hs, hmin, Bool.and_eq_true]
  · rw [hm, hs, hmin, Bool.and_eq_true, Bool.and_eq_true]
    tauto
  · intro s hss
    rw [hs] at hss
    rw [hb, hss, hmin]
    simp [JSNum.gt, JSNum.lt]
  · intro heq
    rw [hs] at heq
    rw [hb, hm, heq, hmin]
    simp [JSNum.lt]

/-- Witness for C3: the amount 0.4 at a SOL price of 150 and a discounted
price of 150 is below the minimum. -/
theorem belowMinimum_iff_shares_witness :
    JSNum.gt (Float64.round (2 / 5)) (JSNum.fin 0) = true ∧
    JSNum.gt (JSNum.fin 150) (JSNum.fin 0) = true ∧
    (calculateConversion ⟨JSNum.fin (1 / 2), JSNum.fin (1 / 4000), JSNum.fin 150,
        JSNum.fin 300, JSNum.fin 150, true⟩ (Float64.round (2 / 5))).belowMinimum = true :=
  ⟨by decide!, by decide!,
   (belowMinimum_iff_shares ⟨JSNum.fin (1 / 2), JSNum.fin (1 / 4000), JSNum.fin 150,
        JSNum.fin 300, JSNum.fin 150, true⟩ (Float64.round (2 / 5)) rfl
      (by decide!) (by decide!) (by decide!)).2.1.mpr ⟨by decide!, by decide!⟩⟩

/-- Claim C6 as stated fails in the doubles of the code.  At the amount 0.52
with a SOL price of 57.65, a TSLA price of 460.57 and the discounted price
half of that, the TSLA value handed to `updateOutputs` is
59.955999999999996, below twice the SOL value 29.978, which is 59.956. -/
theorem tslaUsdValue_not_twice :
    JSNum.gt (Float64.round (52 / 100)) (JSNum.fin 0) = true ∧
    JSNum.gt (Float64.round (5765 / 100)) (JSNum.fin 0) = true ∧
    JSNum.gt (Float64.round (46057 / 100)) (JSNum.fin 0) = true ∧
    (calculateConversion
        ⟨JSNum.fin (1 / 2), JSNum.fin (1 / 4000), Float64.round (5765 / 100),
          Float64.round (46057 / 100),
          Float64.mul (Float64.round (46057 / 100)) (JSNum.fin (1 / 2)), true⟩
        (Float64.round (52 / 100))).solUsd = Float64.round (29978 / 1000) ∧
    (calculateConversion
        ⟨JSNum.fin (1 / 2), JSNum.fin (1 / 4000), Float64.round (5765 / 100),
          Float64.round (46057 / 100),
          Float64.mul (Float64.round (46057 / 100)) (JSNum.fin (1 / 2)), true⟩
        (Float64.round (52 / 100))).tslaUsd
      = Float64.round (59955999999999996 / 1000000000000000) ∧
    Float64.mul (JSNum.fin 2) (Float64.round (29978 / 1000)) = Float64.round (59956 / 1000) ∧
    JSNum.lt (Float64.round (59955999999999996 / 1000000000000000))
      (Float64.round (59956 / 1000)) = true ∧
    JSNum.eq
      (calculateConversion
        ⟨JSNum.fin (1 / 2), JSNum.fin (1 / 4000), Float64.round (5765 / 100),
          Float64.round (46057 / 100),
          Float64.mul (Float64.round (46057 / 100)) (JSNum.fin (1 / 2)), true⟩
        (Float64.round (52 / 100))).tslaUsd
      (Float64.mul (JSNum.fin 2)
        (calculateConversion
          ⟨JSNum.fin (1 / 2), JSNum.fin (1 / 4000), Float64.round (5765 / 100),
            Float64.round (46057 / 100),
            Float64.mul (Float64.round (46057 / 100)) (JSNum.fin (1 / 2)), true⟩
          (Float64.round (52 / 100))).solUsd) = false := by
  refine ⟨by decide!, by decide!, by decide!, by decide!, by decide!, by decide!, by decide!,
    by decide!⟩

end Doubles

namespace Doubles

/-- Claim C6 as amended.  For every positive amount the TSLA value that
`calculateConversion` hands to `updateOutputs` is `tslaShares * tslaPrice`
with the undiscounted price, a double product in the code; with positive
finite prices and `tslaDiscountedPrice = tslaPrice * 0.5` it is twice the SOL
value in exact arithmetic.  At prices 150 and 300 the amount 1 gives a SOL
value of 150 and a TSLA value of 300 in doubles as well. -/
theorem tslaUsdValue_eq_product (c : ConversionCalculator) (parsed : JSNum)
    (hpos : JSNum.gt parsed (JSNum.fin 0) = true) :
    (calculateConversion c parsed).tslaUsd
      = Float64.mul (calculateConversion c parsed).tslaShares c.tslaPrice ∧
    (ConversionCalculator.calculateConversion c parsed).tslaUsd
      = JSNum.mul (ConversionCalculator.calculateConversion c parsed).tslaShares c.tslaPrice ∧
    (∀ a p t : ℚ, parsed = JSNum.fin a → c.solPrice = JSNum.fin p →
      c.tslaPrice = JSNum.fin t → c.tslaDiscountedPrice = JSNum.fin (t * (1 / 2)) →
      0 < p → 0 < t →
        (ConversionCalculator.calculateConversion c parsed).solUsd = JSNum.fin (a * p) ∧
        (ConversionCalculator.calculateConversion c parsed).tslaUsd
          = JSNum.fin (2 * (a * p))) ∧
    calculateConversion
        ⟨JSNum.fin (1 / 2), JSNum.fin (1 / 4000), JSNum.fin 150, JSNum.fin 300,
          Float64.mul (JSNum.fin 300) (JSNum.fin (1 / 2)), true⟩ (JSNum.fin 1)
      = ⟨JSNum.fin 1, JSNum.fin 150, JSNum.fin 300, false, none, false⟩ := by
  obtain ⟨hs, _, hu, _, _⟩ := calculateConversion_main_path c parsed hpos
  obtain ⟨hs', _, hu', _, _⟩ := ConversionCalculator.calculateConversion_pos c parsed hpos
  refine ⟨by rw [hu, hs], by rw [hu', hs'], ?_, by decide!⟩
  intro a p t hpa hp ht hd _ ht0
  obtain ⟨m, fee, sp, tp, dp, v⟩ := c
  simp only at hp ht hd
  subst hpa hp ht hd
  have ha : 0 < a := by simpa [JSNum.gt, JSNum.lt] using hpos
  have hd0 : t * (1 / 2) ≠ 0 := by positivity
  have h := ConversionCalculator.calculateConversion_fin m fee (JSNum.fin t) v a p
    (t * (1 / 2)) ha hd0
  refine ⟨h.2.1, ?_⟩
  rw [h.2.2]
  simp only [JSNum.mul, JSNum.fin.injEq]
  field_simp
  ring

/-- Witness for C6: the amount 1 at prices 150 and 300. -/
theorem tslaUsdValue_eq_product_witness :
    JSNum.gt (JSNum.fin 1) (JSNum.fin 0) = true ∧
    (calculateConversion ⟨JSNum.fin (1 / 2), JSNum.fin (1 / 4000), JSNum.fin 150,
        JSNum.fin 300, JSNum.fin 150, true⟩ (JSNum.fin 1)).tslaUsd
      = Float64.mul
          (calculateConversion ⟨JSNum.fin (1 / 2), JSNum.fin (1 / 4000), JSNum.fin 150,
            JSNum.fin 300, JSNum.fin 150, true⟩ (JSNum.fin 1)).tslaShares
          (JSNum.fin 300) :=
  ⟨by decide!,
   (tslaUsdValue_eq_product ⟨JSNum.fin (1 / 2), JSNum.fin (1 / 4000), JSNum.fin 150,
        JSNum.fin 300, JSNum.fin 150, true⟩ (JSNum.fin 1) (by decide!)).1⟩

/-- Claim C9 as stated fails in the doubles of the code.  For the configured
model with a start date of 2026-01-15T00:00:00 UTC, 135 hours after the start
the percent is 51.25 and the floor of the exact product
`51.25 / 100 * 100000` is 51250, but the rounded product is just below it and
`sold` is 51249.  And with a total of 286975035103806688 tokens, an integer
above `2 ^ 53`, before the start date (percent 45) the subtraction rounds and
`sold + left` is 286975035103806720, not the total. -/
theorem updateProgress_sold_plus_left_counterexample :
    (updateProgress (TokenAllocationProgress.constructor 1768435200000)
        (1768435200000 + 135 * 60 * 60 * 1000)).currentProgress = JSNum.fin (205 / 4) ∧
    (updateProgress (TokenAllocationProgress.constructor 1768435200000)
        (1768435200000 + 135 * 60 * 60 * 1000)).sold = JSNum.fin 51249 ∧
    Int.floor ((205 / 4 : ℚ) / 100 * 100000) = 51250 ∧
    (updateProgress ⟨0, 45, 95, 286975035103806688, 45⟩ (-1)).currentProgress
      = JSNum.fin 45 ∧
    (updateProgress ⟨0, 45, 95, 286975035103806688, 45⟩ (-1)).sold
      = JSNum.fin 129138765796713008 ∧
    (updateProgress ⟨0, 45, 95, 286975035103806688, 45⟩ (-1)).left
      = JSNum.fin 157836269307093696 ∧
    Float64.add (updateProgress ⟨0, 45, 95, 286975035103806688, 45⟩ (-1)).sold
        (updateProgress ⟨0, 45, 95, 286975035103806688, 45⟩ (-1)).left
      = JSNum.fin 286975035103806720 ∧
    JSNum.eq
      (Float64.add (updateProgress ⟨0, 45, 95, 286975035103806688, 45⟩ (-1)).sold
        (updateProgress ⟨0, 45, 95, 286975035103806688, 45⟩ (-1)).left)
      (JSNum.fin 286975035103806688) = false := by
  refine ⟨by decide!, by decide!, by decide!, by decide!, by decide!, by decide!, by decide!,
    by decide!⟩

/-- Claim C9 as amended.  Every snapshot computed by `updateProgress` has
`sold = floor(percent / 100 * totalTokens)` and `left = totalTokens - sold`,
each operation being the double operation of the code, for the percent
returned by `calculateCurrentProgress`.  For a percent in `[0, 100]` and a
positive integer `totalTokens` up to `2 ^ 53`, `sold` is an integer between 0
and `totalTokens`, the subtraction and the sum are exact, and
`sold + left == totalTokens`.  For the configured model with a start date of
2026-01-15T00:00:00 UTC, 135 hours after the start the snapshot has percent
51.25, 51249 sold and 48751 left. -/
theorem updateProgress_sold_plus_left (m : TokenAllocationProgress) (now p : ℚ) (n : ℕ)
    (hp : calculateCurrentProgress m now = JSNum.fin p) (hp0 : 0 ≤ p) (hp1 : p ≤ 100)
    (_hn0 : 0 < n) (hn : n ≤ 2 ^ 53) (htot : m.totalTokens = n) :
    (updateProgress m now).currentProgress = calculateCurrentProgress m now ∧
    (updateProgress m now).sold
      = JSNum.floor (Float64.mul
          (Float64.div (calculateCurrentProgress m now) (JSNum.fin 100))
          (JSNum.fin m.totalTokens)) ∧
    (updateProgress m now).left
      = Float64.sub (JSNum.fin m.totalTokens) (updateProgress m now).sold ∧
    JSNum.eq (Float64.add (updateProgress m now).sold (updateProgress m now).left)
      (JSNum.fin m.totalTokens) = true ∧
    (∃ k : ℕ, k ≤ n ∧ (updateProgress m now).sold = JSNum.fin (k : ℚ) ∧
      (updateProgress m now).left = JSNum.fin ((n : ℚ) - (k : ℚ))) ∧
    updateProgress (TokenAllocationProgress.constructor 1768435200000)
        (1768435200000 + 135 * 60 * 60 * 1000)
      = ⟨JSNum.fin (205 / 4), JSNum.fin 51249, JSNum.fin 48751⟩ := by
  obtain ⟨x, k, hkn, _, _, hsold, hleft⟩ := updateProgress_counts m now p n hp hp0 hp1 hn htot
  have hcast : ((n - k : ℕ) : ℚ) = (n : ℚ) - (k : ℚ) := Nat.cast_sub hkn
  refine ⟨rfl, rfl, rfl, ?_, ⟨k, hkn, hsold, by rw [hleft, hcast]⟩, by decide!⟩
  have hsum : (k : ℚ) + ((n - k : ℕ) : ℚ) = (n : ℚ) := by
    rw [hcast]
    ring
  rw [hsold, hleft, htot]
  simp only [Float64.add, JSNum.add, Float64.ofExact, hsum, Float64.round_natCast n hn]
  simp [JSNum.eq]

/-- Witness for C9: the configured model 135 hours after a start date of
2026-01-15T00:00:00 UTC. -/
theorem updateProgress_sold_plus_left_witness :
    calculateCurrentProgress (TokenAllocationProgress.constructor 1768435200000)
        (1768435200000 + 135 * 60 * 60 * 1000) = JSNum.fin (205 / 4) ∧
    (TokenAllocationProgress.constructor 1768435200000).totalTokens = ((100000 : ℕ) : ℚ) ∧
    JSNum.eq
      (Float64.add
        (updateProgress (TokenAllocationProgress.constructor 1768435200000)
          (1768435200000 + 135 * 60 * 60 * 1000)).sold
        (updateProgress (TokenAllocationProgress.constructor 1768435200000)
          (1768435200000 + 135 * 60 * 60 * 1000)).left)
      (JSNum.fin (TokenAllocationProgress.constructor 1768435200000).totalTokens) = true :=
  ⟨by decide!, by norm_num [TokenAllocationProgress.constructor],
   (updateProgress_sold_plus_left (TokenAllocationProgress.constructor 1768435200000)
      (1768435200000 + 135 * 60 * 60 * 1000) (205 / 4) 100000 (by decide!)
      (by norm_num) (by norm_num) (by norm_num) (by norm_num)
      (by norm_num [TokenAllocationProgress.constructor])).2.2.2.1⟩

end Doubles
